import Mathlib

set_option maxRecDepth 1000000

/-!
Verification of the PR-comment manager scripts (`scripts/manage-pr-comment.py` and
`scripts/manage-compliance-comment.py`).

The Python code is shallowly embedded: strings are Lean `String`s manipulated
through `py*` primitives that mirror the Python `str` methods used by the code
(`find`, `replace` with a non-empty pattern, `split`, `strip`, `startswith`,
slicing, `lower`, `title`).  Case mapping and character classes are modelled at
ASCII precision, which covers every string the scripts construct.  Effects are
made explicit: the wall-clock timestamp and the file system are parameters, the
network is a `Net` record of canned HTTP responses, and each operation returns
the list of HTTP requests it issued together with the diagnostics it printed to
stderr.  Python exceptions are modelled with `Except`/`Option`.
-/

/-! ### Python string primitives -/

/-- Characters for which Python's `str.isspace` holds (these are the characters
removed by `str.strip()`). -/
def pyIsSpace (c : Char) : Bool :=
  c == ' ' || c == '\t' || c == '\n' || c == '\r' || c == '\x0b' || c == '\x0c' ||
  c == '\x1c' || c == '\x1d' || c == '\x1e' || c == '\x1f' || c == '\x85' || c == '\xa0' ||
  c == ' ' || (' ' ≤ c && c ≤ ' ') || c == ' ' || c == ' ' ||
  c == ' ' || c == ' ' || c == '　'

/-- Model of Python `str.strip()` on a character list: drop whitespace from both ends. -/
def pyStripL (l : List Char) : List Char :=
  ((l.dropWhile pyIsSpace).reverse.dropWhile pyIsSpace).reverse

/-- Model of Python `str.strip()`. -/
def pyStrip (s : String) : String :=
  ⟨pyStripL s.data⟩

/-- Index of the first occurrence of `pat` in a character list, or `none`
(Python `str.find` returns `-1` in the `none` case). -/
def findSubL (pat : List Char) : List Char → Option Nat
  | [] => if pat.isPrefixOf [] then some 0 else none
  | c :: rest =>
    if pat.isPrefixOf (c :: rest) then some 0
    else (findSubL pat rest).map (· + 1)

/-- Model of Python `haystack.find(pat)`; `none` plays the role of `-1`. -/
def pyFind (s pat : String) : Option Nat :=
  findSubL pat.data s.data

/-- Model of Python `haystack.find(pat, start)`: the search begins at index
`start` but the returned index is absolute. -/
def pyFindFrom (s pat : String) (start : Nat) : Option Nat :=
  (findSubL pat.data (s.data.drop start)).map (· + start)

/-- Model of the Python `sub in s` substring test. -/
def containsStr (s sub : String) : Bool :=
  (findSubL sub.data s.data).isSome

/-- Model of Python `s.startswith(p)` (with a string argument). -/
def pyStartsWith (s p : String) : Bool :=
  p.data.isPrefixOf s.data

/-- Fuel-indexed worker for `replaceL`; the fuel only serves to make the
recursion structural (callers pass the input length, which is always enough,
since consuming a match advances past at least one character). -/
def replaceLAux (pat rep : List Char) : Nat → List Char → List Char
  | 0, l => l
  | _ + 1, [] => []
  | fuel + 1, c :: rest =>
    if pat.isPrefixOf (c :: rest) && !pat.isEmpty then
      rep ++ replaceLAux pat rep fuel (rest.drop (pat.length - 1))
    else
      c :: replaceLAux pat rep fuel rest

/-- Model of Python `s.replace(pat, rep)` on character lists, for a non-empty
`pat`: replace non-overlapping occurrences left to right.  (Every call site in
the scripts uses a fixed non-empty pattern; the empty-pattern behaviour of
Python is not modelled.) -/
def replaceL (pat rep : List Char) (l : List Char) : List Char :=
  replaceLAux pat rep l.length l

/-- Model of Python `s.replace(pat, rep)` for non-empty `pat`. -/
def pyReplace (s pat rep : String) : String :=
  ⟨replaceL pat.data rep.data s.data⟩

/-- Model of Python `s.split(sep)` for a single-character separator, on
character lists.  `"".split(c) = [""]`, and separators delimit (possibly
empty) fields. -/
def pySplitCharL (sep : Char) : List Char → List (List Char)
  | [] => [[]]
  | c :: rest =>
    if c = sep then [] :: pySplitCharL sep rest
    else
      match pySplitCharL sep rest with
      | [] => [[c]]
      | g :: gs => (c :: g) :: gs

/-- Model of Python `s.split(sep)` for a single-character separator. -/
def pySplitChar (sep : Char) (s : String) : List String :=
  (pySplitCharL sep s.data).map (fun l => ⟨l⟩)

/-- Model of Python `sep.join(xs)`. -/
def pyJoin (sep : String) : List String → String
  | [] => ""
  | [x] => x
  | x :: y :: rest => x ++ sep ++ pyJoin sep (y :: rest)

/-- Model of Python slicing `s[:n]`. -/
def pyTakeStr (n : Nat) (s : String) : String :=
  ⟨s.data.take n⟩

/-- Model of Python slicing `s[a:b]` (for `a ≤ b`, as used by the scripts). -/
def pySliceStr (s : String) (a b : Nat) : String :=
  ⟨(s.data.drop a).take (b - a)⟩

/-- Model of Python slicing `s[a:]`. -/
def pySliceFrom (s : String) (a : Nat) : String :=
  ⟨s.data.drop a⟩

/-- Model of Python `str.lower()` at ASCII precision (all strings the scripts
compare after lowering are ASCII). -/
def pyLower (s : String) : String :=
  ⟨s.data.map Char.toLower⟩

/-- Helper for `pyTitle`: the Boolean records whether the previous character
was alphabetic. -/
def pyTitleAux : Bool → List Char → List Char
  | _, [] => []
  | prevAlpha, c :: rest =>
    (if c.isAlpha then (if prevAlpha then c.toLower else c.toUpper) else c) ::
      pyTitleAux c.isAlpha rest

/-- Model of Python `str.title()` at ASCII precision: the first letter of each
alphabetic run is uppercased, the rest lowercased. -/
def pyTitle (s : String) : String :=
  ⟨pyTitleAux false s.data⟩

/-! ### `PRCommentManager`: constants, marker, sanitization, validation
(from `scripts/manage-pr-comment.py`) -/

/-- `COMMENT_MARKER_BASE` class constant. -/
def COMMENT_MARKER_BASE : String := "sgex-deployment-status-comment"

/-- `ALLOWED_STAGES` class constant.  The Python source is a `set` literal; it
is modelled as a list in the literal's order (only membership and a joined
rendering of the elements are ever used). -/
def ALLOWED_STAGES : List String :=
  ["started", "setup", "building", "deploying", "verifying",
   "success", "failure", "pages-built", "security-check",
   "rate-limit-waiting", "rate-limit-complete"]

/-- State set up by `PRCommentManager.__init__` (the token and API endpoint
play no role in the modelled behaviour).  `workflow_name` and `event_name`
carry the already-defaulted values (`"Unknown Workflow"` / `"unknown"`). -/
structure Manager where
  owner : String
  repo_name : String
  pr_number : Nat
  action_id : Option String
  commit_sha : Option String
  workflow_name : String
  event_name : String

/-- Character class `[a-zA-Z0-9\-_]` kept by the `action_id` sanitization. -/
def isMarkerSafeChar (c : Char) : Bool :=
  c.isAlpha || c.isDigit || c == '-' || c == '_'

/-- `re.sub(r'[^a-zA-Z0-9\-_]', '', str(action_id))[:50]` from `__init__`. -/
def sanitizeActionId (action_id : String) : String :=
  ⟨(action_id.data.filter isMarkerSafeChar).take 50⟩

/-- The action-specific comment marker computed in `__init__`.  A `none` or
empty (falsy) `action_id` yields the bare base marker. -/
def markerFor (action_id : Option String) : String :=
  match action_id with
  | some aid =>
    if aid = "" then "<!-- " ++ COMMENT_MARKER_BASE ++ " -->"
    else "<!-- " ++ COMMENT_MARKER_BASE ++ ":" ++ sanitizeActionId aid ++ " -->"
  | none => "<!-- " ++ COMMENT_MARKER_BASE ++ " -->"

/-- `self.comment_marker`. -/
def comment_marker (m : Manager) : String :=
  markerFor m.action_id

/-- Character class `[\x00-\x08\x0B-\x0C\x0E-\x1F\x7F]` removed by
`sanitize_string` (C0 controls except tab, LF and CR, plus DEL). -/
def strippedCtrl (c : Char) : Bool :=
  c ≤ '\x08' || c == '\x0b' || c == '\x0c' || ('\x0e' ≤ c && c ≤ '\x1f') || c == '\x7f'

/-- The backtick character U+0060 (written via its code point). -/
def backtickChar : Char := Char.ofNat 96

/-- Per-character form of the backtick-escaping replace in `sanitize_string`
(the pattern is a single character, so the string replace acts
character-wise): a backtick becomes backslash-backtick. -/
def escapeBackticksL : List Char → List Char
  | [] => []
  | c :: rest =>
    if c = backtickChar then '\\' :: backtickChar :: escapeBackticksL rest
    else c :: escapeBackticksL rest

/-- `PRCommentManager.sanitize_string` (inputs are modelled as strings, so the
initial `str(value)` coercion is the identity): truncate to `max_length`,
remove the control characters above, escape backticks. -/
def sanitize_string (value : String) (max_length : Nat) : String :=
  ⟨escapeBackticksL ((value.data.take max_length).filter (fun c => !strippedCtrl c))⟩

/-- Character class `[a-zA-Z0-9\-]` of the GitHub Pages host label. -/
def isHostLabelChar (c : Char) : Bool :=
  c.isAlpha || c.isDigit || c == '-'

/-- `re.match(r'^https://(github\.com/|[a-zA-Z0-9\-]+\.github\.io/)', url)`:
since the label class excludes `.`, the regex matches exactly when the text
after `https://` either starts with `github.com/` or starts with a non-empty
label-character run immediately followed by `.github.io/`. -/
def matchesAllowedUrl (url : String) : Bool :=
  pyStartsWith url "https://github.com/" ||
  (pyStartsWith url "https://" &&
    (let t := url.data.drop 8
     let run := t.takeWhile isHostLabelChar
     !run.isEmpty && (".github.io/" : String).data.isPrefixOf (t.drop run.length)))

/-- `PRCommentManager.sanitize_url`. -/
def sanitize_url (url : String) : String :=
  if matchesAllowedUrl url then url else ""

/-- The `ValueError` message raised by `validate_stage` (the joined allowed
set is rendered in the order of the `ALLOWED_STAGES` literal). -/
def invalidStageMessage (stage : String) : String :=
  "Invalid stage '" ++ stage ++ "'. Allowed: " ++ pyJoin ", " ALLOWED_STAGES

/-- `PRCommentManager.validate_stage`: lower, strip, then test membership;
`Except.error` models the raised `ValueError`. -/
def validate_stage (stage : String) : Except String String :=
  let stage := pyStrip (pyLower stage)
  if ALLOWED_STAGES.contains stage then Except.ok stage
  else Except.error (invalidStageMessage stage)

/-! ### Stage rendering and comment-body construction -/

/-- Caller-supplied stage payload (`data`), modelled as a string-to-string
association list; `pyGet` is Python's `dict.get(key, default)`. -/
abbrev Payload := List (String × String)

/-- Python `data.get(key, default)`. -/
def pyGet (data : Payload) (key dflt : String) : String :=
  match data.find? (fun kv => kv.1 == key) with
  | some kv => kv.2
  | none => dflt

/-- The `stage_to_line` dict in `get_workflow_step_link` (`'pages-built'`
maps to `None`, and `.get` of an absent stage is also `None`). -/
def stage_to_line (stage : String) : Option Nat :=
  if stage = "started" then some 125
  else if stage = "setup" then some 203
  else if stage = "building" then some 222
  else if stage = "deploying" then some 361
  else if stage = "verifying" then some 673
  else if stage = "success" then some 770
  else if stage = "failure" then some 784
  else none

/-- The `stage_to_name` dict in `get_workflow_step_link`, with default `stage`. -/
def stage_to_name (stage : String) : String :=
  if stage = "started" then "Build Started"
  else if stage = "setup" then "Environment Setup Complete"
  else if stage = "building" then "Building Application"
  else if stage = "deploying" then "Deploying to GitHub Pages"
  else if stage = "verifying" then "Verifying Deployment"
  else if stage = "success" then "Successfully Deployed"
  else if stage = "failure" then "Deployment Failed"
  else if stage = "pages-built" then "GitHub Pages Built"
  else stage

/-- `PRCommentManager.get_workflow_step_link` (all line numbers in the dict
are non-zero, so `if line` is truthiness of the lookup result; `commit_sha`
truthiness is the non-emptiness test). -/
def get_workflow_step_link (stage commit_sha repo : String) : String :=
  let name := stage_to_name stage
  match stage_to_line stage with
  | some line =>
    if commit_sha ≠ "" ∧ commit_sha ≠ "unknown" then
      "[" ++ name ++ "](https://github.com/" ++ repo ++
        "/blob/" ++ commit_sha ++ "/.github/workflows/branch-deployment.yml#L" ++
        toString line ++ ")"
    else name
  | none => name

/-- The `event_display` lookup in `build_comment_body`. -/
def event_display_of (event_name : String) : String :=
  if event_name = "push" then "📤 Push"
  else if event_name = "pull_request" then "🔀 Pull Request"
  else if event_name = "workflow_dispatch" then "🎯 Manual Trigger"
  else if event_name = "workflow_call" then "🔗 Workflow Call"
  else if event_name = "schedule" then "⏰ Scheduled"
  else "⚙️ " ++ pyTitle (pyReplace event_name "_" " ")

/-- The six stage-dependent strings computed by the `if stage == ...` chain of
`build_comment_body`. -/
structure StageRender where
  status_line : String
  status_icon : String
  status_text : String
  next_step : String
  actions : String
  timeline_entry : String

/-- The `if stage == ...` chain of `build_comment_body`.  The file system
(for the `security-check` stage) is a map from path to contents, `none`
meaning `os.path.exists` is false. -/
def renderStage (stage : String) (data : Payload) (fs : String → Option String)
    (workflow_url branch_url step_link timestamp : String) : StageRender :=
  if stage = "started" then
    let actions := "<h3>🔗 Quick Actions</h3>\n\n<a href=\"" ++ workflow_url ++
      "\"><img src=\"https://img.shields.io/badge/Build_Logs-gray?style=for-the-badge&logo=github\" alt=\"Build Logs\"/></a>"
    let actions := if branch_url ≠ "" then actions ++
      "\n<a href=\"" ++ branch_url ++
      "\"><img src=\"https://img.shields.io/badge/Preview_URL-orange?style=for-the-badge&logo=github&label=%F0%9F%8C%90&labelColor=gray\" alt=\"Expected Deployment URL\"/></a> _(will be live after deployment)_"
      else actions
    ⟨"<h2>🚀 Deployment Status: Build Started</h2>", "🟠", "Initializing build process",
     "**Next:** Installing dependencies and setting up environment", actions,
     "- **" ++ timestamp ++ "** - 🟠 " ++ step_link ++ " - Initializing"⟩
  else if stage = "setup" then
    let actions := "<h3>🔗 Quick Actions</h3>\n\n<a href=\"" ++ workflow_url ++
      "\"><img src=\"https://img.shields.io/badge/Build_Logs-gray?style=for-the-badge&logo=github\" alt=\"Build Logs\"/></a>"
    let actions := if branch_url ≠ "" then actions ++
      "\n<a href=\"" ++ branch_url ++
      "\"><img src=\"https://img.shields.io/badge/Preview_URL-orange?style=for-the-badge&logo=github&label=%F0%9F%8C%90&labelColor=gray\" alt=\"Expected Deployment URL\"/></a> _(will be live after deployment)_"
      else actions
    ⟨"<h2>🚀 Deployment Status: Setting Up Environment</h2>", "🟠",
     "Installing dependencies and configuring environment",
     "**Next:** Building React application", actions,
     "- **" ++ timestamp ++ "** - 🟠 " ++ step_link ++ " - In progress"⟩
  else if stage = "building" then
    let actions := "<h3>🔗 Quick Actions</h3>\n\n<a href=\"" ++ workflow_url ++
      "\"><img src=\"https://img.shields.io/badge/Build_Logs-gray?style=for-the-badge&logo=github\" alt=\"Build Logs\"/></a>"
    let actions := if branch_url ≠ "" then actions ++
      "\n<a href=\"" ++ branch_url ++
      "\"><img src=\"https://img.shields.io/badge/Preview_URL-orange?style=for-the-badge&logo=github&label=%F0%9F%8C%90&labelColor=gray\" alt=\"Expected Deployment URL\"/></a> _(will be live after deployment)_"
      else actions
    ⟨"<h2>🚀 Deployment Status: Building Application</h2>", "🟠",
     "Compiling and bundling application code",
     "**Next:** Deploying to GitHub Pages", actions,
     "- **" ++ timestamp ++ "** - 🟠 " ++ step_link ++ " - In progress"⟩
  else if stage = "deploying" then
    let actions := "<h3>🔗 Quick Actions</h3>\n\n<a href=\"" ++ workflow_url ++
      "\"><img src=\"https://img.shields.io/badge/Build_Logs-gray?style=for-the-badge&logo=github\" alt=\"Build Logs\"/></a>"
    let actions := if branch_url ≠ "" then actions ++
      "\n<a href=\"" ++ branch_url ++
      "\"><img src=\"https://img.shields.io/badge/Preview_URL-orange?style=for-the-badge&logo=github&label=%F0%9F%8C%90&labelColor=gray\" alt=\"Expected Deployment URL\"/></a> _(deploying...)_"
      else actions
    ⟨"<h2>🚀 Deployment Status: Deploying to GitHub Pages</h2>", "🟠",
     "Pushing build artifacts to gh-pages branch",
     "**Next:** Verifying deployment accessibility", actions,
     "- **" ++ timestamp ++ "** - 🟠 " ++ step_link ++ " - In progress"⟩
  else if stage = "verifying" then
    let actions := "<h3>🔗 Quick Actions</h3>\n\n<a href=\"" ++ workflow_url ++
      "\"><img src=\"https://img.shields.io/badge/Build_Logs-gray?style=for-the-badge&logo=github\" alt=\"Build Logs\"/></a>"
    let actions := if branch_url ≠ "" then actions ++
      "\n<a href=\"" ++ branch_url ++
      "\"><img src=\"https://img.shields.io/badge/Preview_URL-orange?style=for-the-badge&logo=github&label=%F0%9F%8C%90&labelColor=gray\" alt=\"Preview URL\"/></a> _(verifying...)_"
      else actions
    ⟨"<h2>🚀 Deployment Status: Verifying Deployment</h2>", "🟠",
     "Checking deployment accessibility",
     "**Next:** Deployment complete or failure reported", actions,
     "- **" ++ timestamp ++ "** - 🟠 " ++ step_link ++ " - In progress"⟩
  else if stage = "pages-built" then
    let actions := "<h3>🔗 Quick Actions</h3>\n\n<a href=\"" ++ branch_url ++
      "\"><img src=\"https://img.shields.io/badge/Preview_URL-brightgreen?style=for-the-badge&logo=github&label=%F0%9F%8C%90&labelColor=gray\" alt=\"Open Branch Preview\"/></a>\n<a href=\"" ++
      workflow_url ++
      "\"><img src=\"https://img.shields.io/badge/Build_Logs-gray?style=for-the-badge&logo=github\" alt=\"Build Logs\"/></a>"
    ⟨"<h2>🚀 Deployment Status: GitHub Pages Built</h2>", "🟢",
     "Pages content deployed, site building",
     "**Status:** Site is live and accessible", actions,
     "- **" ++ timestamp ++ "** - 🟢 " ++ step_link ++ " - Complete"⟩
  else if stage = "security-check" then
    let security_comment_path := pyGet data "security_comment_path" "security-comment.md"
    let security_comment :=
      match fs security_comment_path with
      | some contents => contents
      | none => "Security check results not available"
    let pair :=
      if containsStr security_comment "ISSUES FOUND" || containsStr security_comment "ACTION REQUIRED" then
        ("🔴", "Security issues detected")
      else if containsStr security_comment "WARNINGS" then
        ("🟡", "Security warnings")
      else
        ("🟢", "Security checks passed")
    let status_icon := pair.1
    let status_text := pair.2
    let actions := "<h3>🔒 Security Report</h3>\n\n" ++ security_comment ++
      "\n\n<h3>🔗 Quick Actions</h3>\n\n<a href=\"" ++ workflow_url ++
      "\"><img src=\"https://img.shields.io/badge/Build_Logs-gray?style=for-the-badge&logo=github\" alt=\"Build Logs\"/></a>"
    ⟨"<h2>🔒 Security Check Status: " ++ pyTitle status_text ++ " " ++ status_icon ++ "</h2>",
     status_icon, status_text, "**Status:** Security scan completed", actions,
     "- **" ++ timestamp ++ "** - " ++ status_icon ++ " Security Check - " ++ status_text⟩
  else if stage = "success" then
    let actions := "<h3>🌐 Preview URLs</h3>\n\n<a href=\"" ++ branch_url ++
      "\"><img src=\"https://img.shields.io/badge/Open_Branch_Preview-brightgreen?style=for-the-badge&logo=github&label=%F0%9F%8C%90&labelColor=gray\" alt=\"Open Branch Preview\"/></a>\n\n<h3>🔗 Quick Actions</h3>\n\n<a href=\"" ++
      workflow_url ++
      "\"><img src=\"https://img.shields.io/badge/Build_Logs-gray?style=for-the-badge&logo=github\" alt=\"Build Logs\"/></a>"
    ⟨"<h2>🚀 Deployment Status: Successfully Deployed 🟢</h2>", "🟢", "Live and accessible",
     "**Status:** Deployment complete - site is ready for testing", actions,
     "- **" ++ timestamp ++ "** - 🟢 " ++ step_link ++ " - Site is live"⟩
  else if stage = "failure" then
    let error_message := sanitize_string (pyGet data "error_message" "Unknown error") 200
    let actions := "<h3>🔗 Quick Actions</h3>\n\n<a href=\"" ++ workflow_url ++
      "\"><img src=\"https://img.shields.io/badge/Error_Logs-red?style=for-the-badge&logo=github&label=📊&labelColor=gray\" alt=\"Error Logs\"/></a>\n\n**Error:** " ++
      error_message
    ⟨"<h2>🚀 Deployment Status: Failed 🔴</h2>", "🔴", "Deployment failed",
     "**Action Required:** Fix issues and retry deployment", actions,
     "- **" ++ timestamp ++ "** - 🔴 " ++ step_link ++ " - Failed: " ++ error_message⟩
  else if stage = "rate-limit-waiting" then
    let wait_info := sanitize_string (pyGet data "error_message" "Waiting for rate limit to reset") 300
    let remaining_minutes := sanitize_string (pyGet data "remaining_minutes" "unknown") 10
    let actions := "<h3>🔗 Quick Actions</h3>\n\n<a href=\"" ++ workflow_url ++
      "\"><img src=\"https://img.shields.io/badge/Handler_Logs-orange?style=for-the-badge&logo=github&label=⏳&labelColor=gray\" alt=\"Handler Logs\"/></a>\n\n**Info:** Copilot rate limit detected. Automatically waiting and will retry when ready.\n**Remaining time:** " ++
      remaining_minutes ++ " minutes"
    ⟨"<h2>⏳ Copilot Rate Limit Handler: Waiting 🟡</h2>", "🟡",
     "Waiting for rate limit to reset", "**Status:** " ++ wait_info, actions,
     "- **" ++ timestamp ++ "** - 🟡 Waiting for rate limit - " ++ remaining_minutes ++
       " minutes remaining"⟩
  else if stage = "rate-limit-complete" then
    let actions := "<h3>🔗 Quick Actions</h3>\n\n<a href=\"" ++ workflow_url ++
      "\"><img src=\"https://img.shields.io/badge/Handler_Logs-brightgreen?style=for-the-badge&logo=github&label=✅&labelColor=gray\" alt=\"Handler Logs\"/></a>\n\n**Result:** Rate limit wait completed successfully. Copilot has been triggered to retry."
    ⟨"<h2>✅ Copilot Rate Limit Handler: Complete 🟢</h2>", "🟢",
     "Wait complete, triggering Copilot retry",
     "**Status:** Done waiting! Copilot retry command posted.", actions,
     "- **" ++ timestamp ++ "** - 🟢 Rate limit handler complete - Copilot retry triggered"⟩
  else
    let actions := "<h3>🔗 Quick Actions</h3>\n\n<a href=\"" ++ workflow_url ++
      "\"><img src=\"https://img.shields.io/badge/Build_Logs-gray?style=for-the-badge&logo=github\" alt=\"Build Logs\"/></a>"
    ⟨"<h2>🚀 Deployment Status: In Progress</h2>", "🔵", "Processing",
     "**Status:** Processing deployment", actions,
     "- **" ++ timestamp ++ "** - 🔵 Processing"⟩

/-- The `'### 📋 Deployment Timeline'` anchor string. -/
def timelineHeader : String := "### 📋 Deployment Timeline"

/-- `PRCommentManager.update_timeline_status`: rewrite every previous
in-progress glyph to the completed glyph (an empty timeline is returned
unchanged; the current stage is unused by the code). -/
def update_timeline_status (existing_timeline : String) (_current_stage : String) : String :=
  if existing_timeline = "" then ""
  else pyReplace existing_timeline " - 🟠 " " - 🟢 "

/-- The list comprehension `[line for line in existing_timeline.split('\n')
if line.strip().startswith('-')]` of `build_comment_body`. -/
def timeline_lines (existing_timeline : String) : List String :=
  (pySplitChar '\n' existing_timeline).filter (fun line => pyStartsWith (pyStrip line) "-")

/-- The timeline section assembled by `build_comment_body` from the (already
glyph-updated) existing timeline and the new entry. -/
def timeline_section_of (existing_timeline : String) (entry : String) : String :=
  timelineHeader ++ "\n\n" ++
    (if existing_timeline ≠ "" then pyJoin "\n" (timeline_lines existing_timeline) ++ "\n" else "") ++
    entry ++ "\n"

/-- Everything of the comment body that `build_comment_body` places between the
marker and the timeline block: status line, preamble, actions and the Overall
Progress section. -/
def assembledPre (r : StageRender) (preamble branch_name branch_url : String) : String :=
  "\n" ++ r.status_line ++ "\n\n" ++ preamble ++ "\n\n" ++ r.actions ++
    "\n\n---\n\n<h3>📊 Overall Progress</h3>\n\n**Branch:** [`" ++ branch_name ++ "`](" ++
    branch_url ++ ")  \n**Status:** " ++ r.status_icon ++ " " ++ r.status_text ++ "  \n" ++
    r.next_step ++ "\n"

/-- Everything of the comment built by `build_comment_body` that precedes the
`"\n---\n\n"` separator in front of the timeline block: the marker, the status
line, the preamble, the actions and the Overall Progress section (with the
sanitized payload fields recomputed as in the source). -/
def bodyPre (m : Manager) (stage : String) (data : Payload) (timestamp : String)
    (fs : String → Option String) : String :=
  let commit_sha := sanitize_string (pyGet data "commit_sha" "unknown") 40
  let commit_sha_short := pyTakeStr 7 commit_sha
  let branch_name := sanitize_string (pyGet data "branch_name" "unknown") 100
  let commit_url := sanitize_url (pyGet data "commit_url" "")
  let workflow_url := sanitize_url (pyGet data "workflow_url" "")
  let branch_url := sanitize_url (pyGet data "branch_url" "")
  let action_id_display :=
    match m.action_id with
    | some aid => if aid = "" then "N/A" else aid
    | none => "N/A"
  let repo := m.owner ++ "/" ++ m.repo_name
  let step_link := get_workflow_step_link stage commit_sha repo
  let event_display := event_display_of m.event_name
  let preamble := "<h3>📊 Deployment Information</h3>\n\n**Workflow:** " ++ m.workflow_name ++
    " (" ++ event_display ++ ")  \n**Action ID:** [" ++ action_id_display ++ "](" ++
    workflow_url ++ ")  \n**Commit:** [`" ++ commit_sha_short ++ "`](" ++ commit_url ++
    ") ([view changes](" ++ pyReplace commit_url "/commit/" "/commits/" ++
    "))  \n**Workflow Step:** " ++ step_link ++ "\n"
  let r := renderStage stage data fs workflow_url branch_url step_link timestamp
  comment_marker m ++ assembledPre r preamble branch_name branch_url

/-- The `timeline_entry` computed by `build_comment_body` for the given stage
(the sanitized locals it depends on recomputed as in the source). -/
def builtEntry (m : Manager) (stage : String) (data : Payload) (timestamp : String)
    (fs : String → Option String) : String :=
  let commit_sha := sanitize_string (pyGet data "commit_sha" "unknown") 40
  let workflow_url := sanitize_url (pyGet data "workflow_url" "")
  let branch_url := sanitize_url (pyGet data "branch_url" "")
  let repo := m.owner ++ "/" ++ m.repo_name
  let step_link := get_workflow_step_link stage commit_sha repo
  (renderStage stage data fs workflow_url branch_url step_link timestamp).timeline_entry

/-- The fixed footer after the timeline section. -/
def bodyFoot : String :=
  "---\n\n💡 *This comment is automatically updated as the deployment progresses.*\n"

/-- The `if existing_timeline: existing_timeline = update_timeline_status(...)`
step of `build_comment_body`. -/
def updatedTimeline (existing_timeline stage : String) : String :=
  if existing_timeline ≠ "" then update_timeline_status existing_timeline stage
  else existing_timeline

/-- The full comment string assembled by `build_comment_body`, before the final
marker-at-start check: the pre-timeline part, the separator, the timeline
section built from the glyph-updated existing timeline plus the new entry, and
the footer.  The timestamp (`datetime.now(...)` in Python) is an explicit
parameter. -/
def assembled (m : Manager) (stage : String) (data : Payload) (existing_timeline : String)
    (timestamp : String) (fs : String → Option String) : String :=
  bodyPre m stage data timestamp fs ++ ("\n---\n\n" ++
    (timeline_section_of (updatedTimeline existing_timeline stage)
      (builtEntry m stage data timestamp fs) ++ bodyFoot))

/-- `PRCommentManager.build_comment_body`: assemble the comment, then verify the
post-condition that the marker is at the very start; `Except.error` models the
raised `RuntimeError`. -/
def build_comment_body (m : Manager) (stage : String) (data : Payload)
    (existing_timeline : String) (timestamp : String) (fs : String → Option String) :
    Except String String :=
  let comment := assembled m stage data existing_timeline timestamp fs
  if pyStartsWith comment (comment_marker m) then Except.ok comment
  else Except.error ("CRITICAL ERROR: Comment marker is not at the start of comment body. This will cause duplicate comments. Marker: " ++
    comment_marker m ++ ", Comment starts with: " ++ pyTakeStr 100 comment)

/-- `PRCommentManager.extract_timeline_from_comment`. -/
def extract_timeline_from_comment (comment_body : String) : String :=
  match pyFind comment_body timelineHeader with
  | none => ""
  | some timeline_start =>
    let search_start := timeline_start + timelineHeader.length
    let timeline_end :=
      match pyFindFrom comment_body "\n---" search_start with
      | some e => some e
      | none => pyFindFrom comment_body "💡 *" search_start
    match timeline_end with
    | none => pySliceFrom comment_body timeline_start
    | some te => pyStrip (pySliceStr comment_body timeline_start te)

/-! ### The networked synchronizer (`get_existing_comment`,
`check_duplicate_comment_for_commit`, `update_comment`) -/

/-- A comment object returned by the issue-comments API (only `id` and `body`
are consumed). -/
structure IssueComment where
  id : Nat
  body : String
deriving DecidableEq

/-- One HTTP request issued against the API. -/
inductive NetEvent where
  | getComments
  | postComment (body : String)
  | patchComment (id : Nat) (body : String)
deriving DecidableEq

/-- Canned network responses: the outcome of the comment-listing GET and of the
create/update writes; `Except.error` models a raised
`requests.exceptions.RequestException` with its message. -/
structure Net where
  getResult : Except String (List IssueComment)
  postResult : Except String Unit
  patchResult : Except String Unit

/-- `PRCommentManager.get_existing_comment`: one GET; scan in API order for the
first comment whose body contains the marker; a transport error is caught
inside and yields `none` plus a stderr diagnostic.  The second and third
components are the issued requests and the stderr diagnostics. -/
def get_existing_comment (m : Manager) (net : Net) :
    Option IssueComment × List NetEvent × List String :=
  match net.getResult with
  | Except.error e => (none, [NetEvent.getComments], ["Error fetching comments: " ++ e])
  | Except.ok comments =>
    (comments.find? (fun c => containsStr c.body (comment_marker m)),
     [NetEvent.getComments], [])

/-- `PRCommentManager.check_duplicate_comment_for_commit`: return immediately
(no request) for a falsy or `'unknown'` commit SHA; otherwise one GET and a
scan for the first comment that carries the base marker, mentions the commit
SHA (full or 7-character form) and does not carry this run's own marker. -/
def check_duplicate_comment_for_commit (m : Manager) (net : Net) :
    Option IssueComment × List NetEvent × List String :=
  match m.commit_sha with
  | none => (none, [], [])
  | some sha =>
    if sha = "" ∨ sha = "unknown" then (none, [], [])
    else
      match net.getResult with
      | Except.error e =>
        (none, [NetEvent.getComments], ["Error checking for duplicate comments: " ++ e])
      | Except.ok comments =>
        (comments.find? (fun c =>
          containsStr c.body COMMENT_MARKER_BASE &&
          (containsStr c.body (pyTakeStr 7 sha) || containsStr c.body sha) &&
          !containsStr c.body (comment_marker m)),
         [NetEvent.getComments], [])

/-- The Python exceptions that can cross `update_comment`'s `try` body. -/
inductive PyErr where
  | valueError (msg : String)
  | requestError (msg : String)
  | runtimeError (msg : String)

/-- Message carried by an exception. -/
def pyErrMsg : PyErr → String
  | PyErr.valueError msg => msg
  | PyErr.requestError msg => msg
  | PyErr.runtimeError msg => msg

/-- The `try` body of `PRCommentManager.update_comment`: validate, discover,
optionally consult the duplicate guard, build, publish.  The result carries the
escaping exception (if any), the issued requests, and stderr diagnostics from
the nested calls. -/
def update_comment_try (m : Manager) (net : Net) (stage : String) (data : Payload)
    (timestamp : String) (fs : String → Option String) :
    Except PyErr Bool × List NetEvent × List String :=
  match validate_stage stage with
  | Except.error msg => (Except.error (PyErr.valueError msg), [], [])
  | Except.ok stage =>
    let disc := get_existing_comment m net
    let ev1 := disc.2.1
    let lg1 := disc.2.2
    match disc.1 with
    | some ex =>
      let existing_timeline := extract_timeline_from_comment ex.body
      match build_comment_body m stage data existing_timeline timestamp fs with
      | Except.error msg => (Except.error (PyErr.runtimeError msg), ev1, lg1)
      | Except.ok body =>
        match net.patchResult with
        | Except.error e =>
          (Except.error (PyErr.requestError e), ev1 ++ [NetEvent.patchComment ex.id body], lg1)
        | Except.ok _ =>
          (Except.ok true, ev1 ++ [NetEvent.patchComment ex.id body], lg1)
    | none =>
      let dupr := check_duplicate_comment_for_commit m net
      let ev2 := ev1 ++ dupr.2.1
      let lg2 := lg1 ++ dupr.2.2
      if dupr.1.isSome ∧ stage = "started" then
        (Except.ok true, ev2, lg2)
      else
        match build_comment_body m stage data "" timestamp fs with
        | Except.error msg => (Except.error (PyErr.runtimeError msg), ev2, lg2)
        | Except.ok body =>
          match net.postResult with
          | Except.error e =>
            (Except.error (PyErr.requestError e), ev2 ++ [NetEvent.postComment body], lg2)
          | Except.ok _ =>
            (Except.ok true, ev2 ++ [NetEvent.postComment body], lg2)

/-- Result of one `update_comment` call: the returned Boolean, the stderr
diagnostics (in order), and the HTTP requests issued. -/
structure SyncOutcome where
  ok : Bool
  errlog : List String
  events : List NetEvent

/-- `PRCommentManager.update_comment`: run the `try` body and apply the two
`except` handlers — `RequestException` yields the "Error updating comment"
diagnostic, any other exception the "Unexpected error" diagnostic; both return
`False`.  No exception escapes. -/
def update_comment (m : Manager) (net : Net) (stage : String) (data : Payload)
    (timestamp : String) (fs : String → Option String) : SyncOutcome :=
  match update_comment_try m net stage data timestamp fs with
  | (Except.ok b, ev, lg) => ⟨b, lg, ev⟩
  | (Except.error (PyErr.requestError e), ev, lg) =>
    ⟨false, lg ++ ["❌ Error updating comment: " ++ e], ev⟩
  | (Except.error (PyErr.valueError msg), ev, lg) =>
    ⟨false, lg ++ ["❌ Unexpected error: " ++ msg], ev⟩
  | (Except.error (PyErr.runtimeError msg), ev, lg) =>
    ⟨false, lg ++ ["❌ Unexpected error: " ++ msg], ev⟩

/-! ### `ComplianceCommentManager.get_layout_count_for_sorting`
(from `scripts/manage-compliance-comment.py`) -/

/-- A dynamically-typed Python value, as far as `get_layout_count_for_sorting`
can observe one. -/
inductive PyVal where
  | pnone
  | pint (n : Int)
  | pstr (s : String)
  | plist (xs : List PyVal)
  | pdict (kvs : List (String × PyVal))

/-- Python `v[key]` for a string key: a dict lookup; a missing key
(`KeyError`) or a non-dict receiver (`TypeError`) is `none` — both exceptions
are caught by the caller. -/
def pyGetItemStr (v : PyVal) (key : String) : Option PyVal :=
  match v with
  | PyVal.pdict kvs => (kvs.find? (fun kv => kv.1 == key)).map (fun kv => kv.2)
  | _ => none

/-- Python `v[0]`-style indexing: lists index into their elements
(`IndexError` is `none`), strings yield a one-character string, everything
else raises (`none`). -/
def pyGetItemIdx (v : PyVal) (i : Nat) : Option PyVal :=
  match v with
  | PyVal.plist xs => xs[i]?
  | PyVal.pstr s => (s.data[i]?).map (fun c => PyVal.pstr ⟨[c]⟩)
  | _ => none

/-- The first maximal run of ASCII decimal digits in a character list, or
`none` (the group captured by `re.search(r'(\d+)', text)`). -/
def firstDigitRun : List Char → Option (List Char)
  | [] => none
  | c :: rest =>
    if c.isDigit then some (c :: rest.takeWhile Char.isDigit)
    else firstDigitRun rest

/-- Decimal value of a digit list (`int(match.group(1))`). -/
def natOfDigits (ds : List Char) : Nat :=
  ds.foldl (fun acc c => acc * 10 + (c.toNat - '0'.toNat)) 0

/-- `re.search(r'(\d+)', s)` followed by `int(...)` on the captured group. -/
def reSearchFirstNumber (s : String) : Option Nat :=
  (firstDigitRun s.data).map natOfDigits

/-- `ComplianceCommentManager.get_layout_count_for_sorting`: extract the first
number of `comp['issues'][0]`; any `KeyError`/`IndexError`/`TypeError` along
the way (and a digitless text) gives `0`. -/
def get_layout_count_for_sorting (comp : PyVal) : Nat :=
  match pyGetItemStr comp "issues" with
  | none => 0
  | some issues =>
    match pyGetItemIdx issues 0 with
    | none => 0
    | some v =>
      match v with
      | PyVal.pstr s =>
        match reSearchFirstNumber s with
        | some n => n
        | none => 0
      | _ => 0

/-! ### General helper lemmas -/

theorem stringDataInj {a b : String} (h : a.data = b.data) : a = b := by
  cases a with
  | mk d1 =>
    cases b with
    | mk d2 => exact congrArg String.mk h

theorem pyStartsWith_append (a b : String) : pyStartsWith (a ++ b) a = true := by
  simp only [pyStartsWith, String.data_append, List.isPrefixOf_iff_prefix]
  exact List.prefix_append a.data b.data

/-! ### C6: marker construction -/

theorem markerFor_truthy {aid : String} (h : aid ≠ "") :
    markerFor (some aid) =
      "<!-- " ++ COMMENT_MARKER_BASE ++ ":" ++ sanitizeActionId aid ++ " -->" := by
  simp [markerFor, h]

/-- C6 counterexample: the identity tokens `"a"` and `"a!"` are distinct, yet
they produce the same marker, because sanitization deletes the `!`. -/
theorem C6_counterexample :
    ("a" : String) ≠ "a!" ∧ markerFor (some "a") = markerFor (some "a!") := by
  constructor
  · decide
  · decide

/-- C6 (amended): markers are distinct whenever the sanitized-and-truncated
identity tokens are distinct (sanitization can collide distinct raw tokens,
as the counterexample shows; an empty token falls back to the base marker). -/
theorem C6_marker_injective_on_sanitized (t1 t2 : String)
    (h : sanitizeActionId t1 ≠ sanitizeActionId t2) :
    markerFor (some t1) ≠ markerFor (some t2) := by
  have l1 : ("<!-- " : String).length = 5 := by decide
  have l2 : COMMENT_MARKER_BASE.length = 30 := by decide
  have l3 : (":" : String).length = 1 := by decide
  have l4 : (" -->" : String).length = 4 := by decide
  have hlen : ∀ u : String, u ≠ "" →
      (markerFor (some u)).length = 40 + (sanitizeActionId u).length := by
    intro u hu
    rw [markerFor_truthy hu]
    simp only [String.length_append, l1, l2, l3, l4]
    omega
  have hbase : (markerFor (some "")).length = 39 := by decide
  by_cases h1 : t1 = ""
  · by_cases h2 : t2 = ""
    · subst h1; subst h2; exact absurd rfl h
    · intro heq
      have := congrArg String.length heq
      rw [h1, hbase, hlen t2 h2] at this
      omega
  · by_cases h2 : t2 = ""
    · intro heq
      have := congrArg String.length heq
      rw [h2, hbase, hlen t1 h1] at this
      omega
    · intro heq
      apply h
      rw [markerFor_truthy h1, markerFor_truthy h2] at heq
      have hd := congrArg String.data heq
      simp only [String.data_append, List.append_assoc] at hd
      have hd2 := List.append_cancel_left hd
      have hd3 := List.append_cancel_left hd2
      have hd4 := List.append_cancel_left hd3
      exact stringDataInj (List.append_cancel_right hd4)

/-- C6 witness: two concrete distinct sanitized tokens give distinct markers. -/
theorem C6_marker_injective_witness :
    markerFor (some "run-a") ≠ markerFor (some "run-b") :=
  C6_marker_injective_on_sanitized "run-a" "run-b" (by decide)

/-! ### C7: payload sanitization -/

/-- Bool recognizer for "every backtick is immediately preceded by a
backslash": a bare backtick fails; a backslash-backtick pair is consumed. -/
def backticksEscaped : List Char → Bool
  | [] => true
  | [c] => if c = backtickChar then false else true
  | c :: d :: rest =>
    if c = backtickChar then false
    else if c = '\\' ∧ d = backtickChar then backticksEscaped rest
    else backticksEscaped (d :: rest)

theorem escapeBackticksL_cons (c : Char) (t : List Char) :
    escapeBackticksL (c :: t) =
      if c = backtickChar then '\\' :: backtickChar :: escapeBackticksL t
      else c :: escapeBackticksL t := rfl

theorem backticksEscaped_cons2 (c d : Char) (rest : List Char) :
    backticksEscaped (c :: d :: rest) =
      if c = backtickChar then false
      else if c = '\\' ∧ d = backtickChar then backticksEscaped rest
      else backticksEscaped (d :: rest) := rfl

theorem escapeBackticksL_length (l : List Char) :
    (escapeBackticksL l).length ≤ 2 * l.length := by
  induction l with
  | nil => simp [escapeBackticksL]
  | cons c t ih =>
    rw [escapeBackticksL_cons]
    by_cases hc : c = backtickChar
    · rw [if_pos hc]
      simp only [List.length_cons]
      omega
    · rw [if_neg hc]
      simp only [List.length_cons]
      omega

theorem escapeBackticksL_mem {c : Char} {l : List Char} (h : c ∈ escapeBackticksL l) :
    c = '\\' ∨ c ∈ l := by
  induction l with
  | nil => simp [escapeBackticksL] at h
  | cons d t ih =>
    rw [escapeBackticksL_cons] at h
    by_cases hd : d = backtickChar
    · rw [if_pos hd] at h
      rcases List.mem_cons.mp h with h1 | h
      · exact Or.inl h1
      rcases List.mem_cons.mp h with h1 | h
      · exact Or.inr (by rw [h1, ← hd]; exact List.mem_cons_self d t)
      · rcases ih h with h' | h'
        · exact Or.inl h'
        · exact Or.inr (List.mem_cons_of_mem d h')
    · rw [if_neg hd] at h
      rcases List.mem_cons.mp h with h1 | h
      · exact Or.inr (by rw [h1]; exact List.mem_cons_self d t)
      · rcases ih h with h' | h'
        · exact Or.inl h'
        · exact Or.inr (List.mem_cons_of_mem d h')

theorem escapeBackticksL_head_not_backtick (l : List Char) (r : List Char) :
    escapeBackticksL l ≠ backtickChar :: r := by
  cases l with
  | nil => simp [escapeBackticksL]
  | cons c t =>
    rw [escapeBackticksL_cons]
    by_cases hc : c = backtickChar
    · rw [if_pos hc]
      intro h
      have : ('\\' : Char) = backtickChar := (List.cons_eq_cons.mp h).1
      exact absurd this (by decide)
    · rw [if_neg hc]
      intro h
      exact hc (List.cons_eq_cons.mp h).1

theorem escapeBackticksL_escaped (l : List Char) :
    backticksEscaped (escapeBackticksL l) = true := by
  induction l with
  | nil => rfl
  | cons c t ih =>
    rw [escapeBackticksL_cons]
    by_cases hc : c = backtickChar
    · rw [if_pos hc, backticksEscaped_cons2, if_neg (by decide), if_pos (by decide)]
      exact ih
    · rw [if_neg hc]
      cases hout : escapeBackticksL t with
      | nil =>
        show (if c = backtickChar then false else true) = true
        rw [if_neg hc]
      | cons d r2 =>
        have hd : d ≠ backtickChar := by
          intro hdb
          exact escapeBackticksL_head_not_backtick t r2 (by rw [hout, hdb])
        rw [backticksEscaped_cons2, if_neg hc, if_neg (by exact fun hp => hd hp.2), ← hout]
        exact ih

/-- C7 counterexample: `sanitize_string "``" 2` has length 4, exceeding the
cap 2 (backtick escaping doubles characters after truncation), and a tab — a
control character — passes through `sanitize_string` untouched. -/
theorem C7_counterexample :
    (sanitize_string "``" 2).length = 4 ∧ ¬ (sanitize_string "``" 2).length ≤ 2 ∧
    sanitize_string "\t" 5 = "\t" := by
  refine ⟨by decide, by decide, by decide⟩

/-- C7 (amended): `sanitize_string v L` truncates to `L` before escaping, so
its length is at most `2 * L` (not `L`); it removes exactly the control
characters of the class `[\x00-\x08\x0B-\x0C\x0E-\x1F\x7F]` (tab, LF and CR
survive); every backtick in its output is escaped by a preceding backslash.
`sanitize_url` returns the input exactly when it matches the allow-listed
`https://github.com/` or `https://<label>.github.io/` pattern, and the empty
string otherwise. -/
theorem C7_sanitization (v u : String) (L : Nat) :
    (sanitize_string v L).length ≤ 2 * L ∧
    (∀ c ∈ (sanitize_string v L).data, strippedCtrl c = false) ∧
    backticksEscaped (sanitize_string v L).data = true ∧
    (matchesAllowedUrl u = true → sanitize_url u = u) ∧
    (matchesAllowedUrl u = false → sanitize_url u = "") := by
  refine ⟨?_, ?_, ?_, ?_, ?_⟩
  · show (escapeBackticksL _).length ≤ 2 * L
    calc (escapeBackticksL ((v.data.take L).filter (fun c => !strippedCtrl c))).length
        ≤ 2 * ((v.data.take L).filter (fun c => !strippedCtrl c)).length :=
          escapeBackticksL_length _
      _ ≤ 2 * (v.data.take L).length := by
          have := List.length_filter_le (fun c => !strippedCtrl c) (v.data.take L)
          omega
      _ ≤ 2 * L := by
          have := List.length_take_le L v.data
          omega
  · intro c hc
    rcases escapeBackticksL_mem hc with h | h
    · subst h; decide
    · have := List.of_mem_filter h
      simpa using this
  · exact escapeBackticksL_escaped _
  · intro h
    simp [sanitize_url, h]
  · intro h
    simp [sanitize_url, h]

/-- C7 witness: the amended sanitization properties at concrete inputs. -/
theorem C7_sanitization_witness :
    (sanitize_string "a`b\x01" 10).length ≤ 20 ∧
    backticksEscaped (sanitize_string "a`b\x01" 10).data = true ∧
    sanitize_url "https://github.com/litlfred/sgex" = "https://github.com/litlfred/sgex" ∧
    sanitize_url "javascript:alert(1)" = "" := by
  have h := C7_sanitization "a`b\x01" "https://github.com/litlfred/sgex" 10
  have h2 := C7_sanitization "a`b\x01" "javascript:alert(1)" 10
  exact ⟨h.1, h.2.2.1, h.2.2.2.1 (by decide), h2.2.2.2.2 (by decide)⟩

/-! ### C9: numeric extraction for sorting -/

theorem firstDigitRun_eq_none {l : List Char} (h : ∀ c ∈ l, c.isDigit = false) :
    firstDigitRun l = none := by
  induction l with
  | nil => rfl
  | cons c t ih =>
    rw [firstDigitRun, if_neg]
    · exact ih (fun d hd => h d (List.mem_cons_of_mem c hd))
    · simp [h c (List.mem_cons_self c t)]

/-- C9 counterexample: a string-typed `issues` field is a "wrong type" for the
expected list-of-strings shape, yet `comp['issues'][0]` indexes into the
string's first character and the extractor returns its digit value 5, not 0. -/
theorem C9_counterexample :
    get_layout_count_for_sorting (PyVal.pdict [("issues", PyVal.pstr "5x")]) = 5 := by
  decide

/-- C9 (amended): the extractor returns the first decimal number of the first
issue string (so 12 for "Found 12 layout components"), 0 when that string has
no digits, and 0 without raising when `issues` is missing, an empty list, or
of a type whose subscripting or regex search raises (int, None, ...); a
string-typed `issues` field, however, is indexed character-wise rather than
rejected (see the counterexample). -/
theorem C9_layout_count_extraction :
    get_layout_count_for_sorting
      (PyVal.pdict [("issues", PyVal.plist [PyVal.pstr "Found 12 layout components"])]) = 12 ∧
    (∀ (s : String) (rest : List PyVal),
      get_layout_count_for_sorting (PyVal.pdict [("issues", PyVal.plist (PyVal.pstr s :: rest))]) =
        (reSearchFirstNumber s).getD 0) ∧
    (∀ (s : String) (rest : List PyVal), (∀ c ∈ s.data, c.isDigit = false) →
      get_layout_count_for_sorting (PyVal.pdict [("issues", PyVal.plist (PyVal.pstr s :: rest))]) = 0) ∧
    (∀ kvs : List (String × PyVal), (∀ kv ∈ kvs, kv.1 ≠ "issues") →
      get_layout_count_for_sorting (PyVal.pdict kvs) = 0) ∧
    get_layout_count_for_sorting (PyVal.pdict [("issues", PyVal.plist [])]) = 0 ∧
    (∀ n : Int, get_layout_count_for_sorting (PyVal.pdict [("issues", PyVal.pint n)]) = 0) ∧
    get_layout_count_for_sorting (PyVal.pdict [("issues", PyVal.pnone)]) = 0 := by
  refine ⟨by decide, ?_, ?_, ?_, by decide, ?_, by decide⟩
  · intro s rest
    simp only [get_layout_count_for_sorting, pyGetItemStr, pyGetItemIdx, List.find?]
    simp [reSearchFirstNumber]
    cases firstDigitRun s.data <;> simp
  · intro s rest h
    simp only [get_layout_count_for_sorting, pyGetItemStr, pyGetItemIdx, List.find?]
    simp [reSearchFirstNumber, firstDigitRun_eq_none h]
  · intro kvs h
    have : kvs.find? (fun kv => kv.1 == "issues") = none := by
      rw [List.find?_eq_none]
      intro kv hkv
      simp [h kv hkv]
    simp [get_layout_count_for_sorting, pyGetItemStr, this]
  · intro n
    simp [get_layout_count_for_sorting, pyGetItemStr, pyGetItemIdx, List.find?]

/-- C9 witness: the amended extraction properties at concrete inputs. -/
theorem C9_layout_count_witness :
    get_layout_count_for_sorting
      (PyVal.pdict [("issues", PyVal.plist [PyVal.pstr "Found 12 layout components"])]) = 12 ∧
    get_layout_count_for_sorting
      (PyVal.pdict [("issues", PyVal.plist [PyVal.pstr "no digits"])]) = 0 ∧
    get_layout_count_for_sorting (PyVal.pdict [("other", PyVal.pnone)]) = 0 := by
  have h := C9_layout_count_extraction
  refine ⟨h.1, h.2.2.1 "no digits" [] (by decide), h.2.2.2.1 [("other", PyVal.pnone)] ?_⟩
  intro kv hkv
  simp at hkv
  rw [hkv]
  decide

/-! ### C10: duplicate-guard self-exclusion -/

/-- C10: the duplicate check never returns a comment whose body carries this
run's own full marker, and with an absent, empty or `'unknown'` commit SHA it
returns `None` without issuing any request or scanning any comment. -/
theorem C10_duplicate_guard_self_exclusion (m : Manager) (net : Net) :
    (∀ c : IssueComment, (check_duplicate_comment_for_commit m net).1 = some c →
      containsStr c.body (comment_marker m) = false) ∧
    ((m.commit_sha = none ∨ m.commit_sha = some "" ∨ m.commit_sha = some "unknown") →
      check_duplicate_comment_for_commit m net = (none, [], [])) := by
  constructor
  · intro c hc
    unfold check_duplicate_comment_for_commit at hc
    rcases hsha : m.commit_sha with _ | sha
    · rw [hsha] at hc
      simp at hc
    · rw [hsha] at hc
      dsimp only at hc
      by_cases hcond : sha = "" ∨ sha = "unknown"
      · rw [if_pos hcond] at hc
        simp at hc
      · rw [if_neg hcond] at hc
        rcases hget : net.getResult with e | comments
        · rw [hget] at hc
          simp at hc
        · rw [hget] at hc
          dsimp only at hc
          have := List.find?_some hc
          simp only [Bool.and_eq_true, Bool.not_eq_true'] at this
          exact this.2
  · intro h
    unfold check_duplicate_comment_for_commit
    rcases h with h | h | h
    · rw [h]
    · rw [h]
      simp
    · rw [h]
      simp

/-- C10 witness: at a concrete comment list the guard returns a qualifying
foreign comment (whose body provably lacks this run's marker), and with an
`'unknown'` SHA it does nothing. -/
theorem C10_duplicate_guard_witness :
    containsStr "<!-- sgex-deployment-status-comment:other --> abc1234" (comment_marker
      ⟨"o", "r", 1, some "run-1", some "abc1234def", "W", "push"⟩) = false ∧
    check_duplicate_comment_for_commit
      ⟨"o", "r", 1, some "run-1", some "unknown", "W", "push"⟩
      ⟨Except.ok [], Except.ok (), Except.ok ()⟩ = (none, [], []) := by
  constructor
  · exact (C10_duplicate_guard_self_exclusion
      ⟨"o", "r", 1, some "run-1", some "abc1234def", "W", "push"⟩
      ⟨Except.ok [⟨5, "<!-- sgex-deployment-status-comment:other --> abc1234"⟩],
       Except.ok (), Except.ok ()⟩).1
      ⟨5, "<!-- sgex-deployment-status-comment:other --> abc1234"⟩ (by decide)
  · exact (C10_duplicate_guard_self_exclusion _ _).2 (Or.inr (Or.inr rfl))

/-! ### C1: the marker is always the literal start of the built body -/

theorem bodyPre_eq_marker_append (m : Manager) (stage : String) (data : Payload)
    (timestamp : String) (fs : String → Option String) :
    ∃ rest, bodyPre m stage data timestamp fs = comment_marker m ++ rest :=
  ⟨_, rfl⟩

theorem assembled_eq_marker_append (m : Manager) (stage : String) (data : Payload)
    (existing_timeline timestamp : String) (fs : String → Option String) :
    ∃ rest, (assembled m stage data existing_timeline timestamp fs).data =
      (comment_marker m).data ++ rest := by
  obtain ⟨r1, h1⟩ := bodyPre_eq_marker_append m stage data timestamp fs
  refine ⟨r1.data ++ ("\n---\n\n" ++
    (timeline_section_of (updatedTimeline existing_timeline stage)
      (builtEntry m stage data timestamp fs) ++ bodyFoot)).data, ?_⟩
  show (bodyPre m stage data timestamp fs ++ _).data = _
  rw [String.data_append, h1, String.data_append, List.append_assoc]

theorem assembled_startsWith_marker (m : Manager) (stage : String) (data : Payload)
    (existing_timeline timestamp : String) (fs : String → Option String) :
    pyStartsWith (assembled m stage data existing_timeline timestamp fs)
      (comment_marker m) = true := by
  obtain ⟨rest, hr⟩ := assembled_eq_marker_append m stage data existing_timeline timestamp fs
  show (comment_marker m).data.isPrefixOf
    (assembled m stage data existing_timeline timestamp fs).data = true
  rw [List.isPrefixOf_iff_prefix, hr]
  exact List.prefix_append _ _

theorem build_comment_body_eq_ok (m : Manager) (stage : String) (data : Payload)
    (existing_timeline timestamp : String) (fs : String → Option String) :
    build_comment_body m stage data existing_timeline timestamp fs =
      Except.ok (assembled m stage data existing_timeline timestamp fs) := by
  simp [build_comment_body,
    assembled_startsWith_marker m stage data existing_timeline timestamp fs]

/-- C1: for every allowed stage, every payload and every prior timeline, the
built body starts with the comment marker as its literal first characters, and
`build_comment_body` returns it (rather than raising the internal-consistency
`RuntimeError`). -/
theorem C1_body_starts_with_marker (m : Manager) (stage : String) (data : Payload)
    (existing_timeline timestamp : String) (fs : String → Option String)
    (_hstage : stage ∈ ALLOWED_STAGES) :
    build_comment_body m stage data existing_timeline timestamp fs =
      Except.ok (assembled m stage data existing_timeline timestamp fs) ∧
    pyStartsWith (assembled m stage data existing_timeline timestamp fs)
      (comment_marker m) = true :=
  ⟨build_comment_body_eq_ok m stage data existing_timeline timestamp fs,
   assembled_startsWith_marker m stage data existing_timeline timestamp fs⟩

/-- Shared concrete fixtures for witnesses and counterexamples. -/
def exManager : Manager := ⟨"o", "r", 1, some "run-1", some "abc1234", "W", "push"⟩

def exNetOk : Net := ⟨Except.ok [], Except.ok (), Except.ok ()⟩

def exFs : String → Option String := fun _ => none

/-- C1 witness: the marker-at-start property at a concrete allowed stage. -/
theorem C1_body_starts_with_marker_witness :
    build_comment_body exManager "started" [] "" "t" exFs =
      Except.ok (assembled exManager "started" [] "" "t" exFs) ∧
    pyStartsWith (assembled exManager "started" [] "" "t" exFs)
      (comment_marker exManager) = true :=
  C1_body_starts_with_marker exManager "started" [] "" "t" exFs (by decide)

/-! ### C2: stage validation happens before any network traffic -/

theorem validate_stage_of_contains {stage : String}
    (h : ALLOWED_STAGES.contains (pyStrip (pyLower stage)) = true) :
    validate_stage stage = Except.ok (pyStrip (pyLower stage)) := by
  simp only [validate_stage]
  rw [if_pos h]

theorem validate_stage_of_not_contains {stage : String}
    (h : ALLOWED_STAGES.contains (pyStrip (pyLower stage)) = false) :
    validate_stage stage =
      Except.error (invalidStageMessage (pyStrip (pyLower stage))) := by
  simp only [validate_stage]
  rw [if_neg]
  intro hmem
  rw [hmem] at h
  exact absurd h (by decide)

theorem update_comment_events_eq (m : Manager) (net : Net) (stage : String) (data : Payload)
    (timestamp : String) (fs : String → Option String) :
    (update_comment m net stage data timestamp fs).events =
      (update_comment_try m net stage data timestamp fs).2.1 := by
  unfold update_comment
  rcases htry : update_comment_try m net stage data timestamp fs with ⟨r, ev, lg⟩
  rcases r with e | b
  · rcases e with msg | msg | msg <;> rfl
  · rfl

theorem check_duplicate_events (m : Manager) (net : Net) :
    (check_duplicate_comment_for_commit m net).2.1 = [] ∨
    (check_duplicate_comment_for_commit m net).2.1 = [NetEvent.getComments] := by
  unfold check_duplicate_comment_for_commit
  rcases m.commit_sha with _ | sha
  · exact Or.inl rfl
  · dsimp only
    by_cases hcond : sha = "" ∨ sha = "unknown"
    · rw [if_pos hcond]
      exact Or.inl rfl
    · rw [if_neg hcond]
      rcases net.getResult with e | comments
      · exact Or.inr rfl
      · exact Or.inr rfl

theorem try_events_ne_nil (m : Manager) (net : Net) (stage : String) (data : Payload)
    (timestamp : String) (fs : String → Option String) (s : String)
    (hv : validate_stage stage = Except.ok s) :
    (update_comment_try m net stage data timestamp fs).2.1 ≠ [] := by
  unfold update_comment_try
  rw [hv]
  rcases hget : net.getResult with e | comments <;>
    simp only [get_existing_comment, hget]
  · by_cases hdup : (check_duplicate_comment_for_commit m net).1.isSome ∧ s = "started"
    · rw [if_pos hdup]
      simp
    · rw [if_neg hdup]
      rw [build_comment_body_eq_ok]
      rcases net.postResult with e' | u
      · simp
      · simp
  · rcases hfind : comments.find? (fun c => containsStr c.body (comment_marker m)) with _ | ex <;>
      rw [hfind]
    · by_cases hdup : (check_duplicate_comment_for_commit m net).1.isSome ∧ s = "started"
      · rw [if_pos hdup]
        simp
      · rw [if_neg hdup]
        rw [build_comment_body_eq_ok]
        rcases net.postResult with e' | u
        · simp
        · simp
    · rcases net.patchResult with e' | u
      · simp [build_comment_body_eq_ok]
      · simp [build_comment_body_eq_ok]

/-- C2 (amended): `update_comment` fails with the invalid-stage diagnostic —
which names the lowercased, trimmed form of the received value (not the raw
received value, see the counterexample) together with the allowed set — and
has issued no network request, exactly when the lowercased, trimmed stage is
not a member of the allowed set. -/
theorem C2_invalid_stage_iff (m : Manager) (net : Net) (stage : String) (data : Payload)
    (timestamp : String) (fs : String → Option String) :
    ((update_comment m net stage data timestamp fs).ok = false ∧
     (update_comment m net stage data timestamp fs).errlog =
       ["❌ Unexpected error: " ++ invalidStageMessage (pyStrip (pyLower stage))] ∧
     (update_comment m net stage data timestamp fs).events = []) ↔
    ALLOWED_STAGES.contains (pyStrip (pyLower stage)) = false := by
  constructor
  · intro h
    rcases h with ⟨hok, hlog, hev⟩
    by_contra hcon
    have hc : ALLOWED_STAGES.contains (pyStrip (pyLower stage)) = true := by
      cases hb : ALLOWED_STAGES.contains (pyStrip (pyLower stage))
      · exact absurd hb hcon
      · rfl
    have hne := try_events_ne_nil m net stage data timestamp fs _ (validate_stage_of_contains hc)
    rw [← update_comment_events_eq] at hne
    exact hne hev
  · intro h
    have hv := validate_stage_of_not_contains h
    unfold update_comment update_comment_try
    rw [hv]
    dsimp only
    exact ⟨rfl, by simp, rfl⟩

/-- C2 counterexample: for the received stage value `"Bogus"` the diagnostic
names only the normalized value `'bogus'`; the received value `"Bogus"` does
not occur in it.  (No network request is issued, as the claim says.) -/
theorem C2_counterexample :
    (update_comment exManager exNetOk "Bogus" [] "t" exFs).ok = false ∧
    (update_comment exManager exNetOk "Bogus" [] "t" exFs).events = [] ∧
    (update_comment exManager exNetOk "Bogus" [] "t" exFs).errlog =
      ["❌ Unexpected error: " ++ invalidStageMessage "bogus"] ∧
    containsStr ("❌ Unexpected error: " ++ invalidStageMessage "bogus") "Bogus" = false := by
  refine ⟨by decide, by decide, by decide, by decide⟩

/-! ### C3: transport-failure handling -/

theorem update_comment_errlog_extends (m : Manager) (net : Net) (stage : String) (data : Payload)
    (timestamp : String) (fs : String → Option String) :
    ∃ extra, (update_comment m net stage data timestamp fs).errlog =
      (update_comment_try m net stage data timestamp fs).2.2 ++ extra := by
  unfold update_comment
  rcases htry : update_comment_try m net stage data timestamp fs with ⟨r, ev, lg⟩
  rcases r with e | b
  · rcases e with msg | msg | msg
    · exact ⟨["❌ Unexpected error: " ++ msg], rfl⟩
    · exact ⟨["❌ Error updating comment: " ++ msg], rfl⟩
    · exact ⟨["❌ Unexpected error: " ++ msg], rfl⟩
  · exact ⟨[], (List.append_nil lg).symm⟩

theorem try_fetch_diagnostic (m : Manager) (net : Net) (stage : String) (data : Payload)
    (timestamp : String) (fs : String → Option String) (e s : String)
    (hget : net.getResult = Except.error e) (hv : validate_stage stage = Except.ok s) :
    ("Error fetching comments: " ++ e) ∈ (update_comment_try m net stage data timestamp fs).2.2 := by
  unfold update_comment_try
  rw [hv]
  simp only [get_existing_comment, hget]
  by_cases hdup : (check_duplicate_comment_for_commit m net).1.isSome ∧ s = "started"
  · rw [if_pos hdup]
    simp
  · rw [if_neg hdup]
    rw [build_comment_body_eq_ok]
    rcases net.postResult with e' | u
    · simp
    · simp

/-- C3 (amended): every exception raised inside the `try` body is converted by
the handlers into a `False` result with an appended diagnostic (no fault
propagates); a failure of the discovery read is caught and logged but the sync
continues as if no comment existed (it can then succeed — see the
counterexample); a failure of the issued write (update of a discovered
comment, or creation) yields a `False` result with the transport diagnostic. -/
theorem C3_transport_handling (m : Manager) (net : Net) (stage : String) (data : Payload)
    (timestamp : String) (fs : String → Option String) :
    (∀ pe ev lg, update_comment_try m net stage data timestamp fs = (Except.error pe, ev, lg) →
      (update_comment m net stage data timestamp fs).ok = false ∧
      ∃ d, (update_comment m net stage data timestamp fs).errlog = lg ++ [d]) ∧
    (∀ e s, net.getResult = Except.error e → validate_stage stage = Except.ok s →
      ("Error fetching comments: " ++ e) ∈ (update_comment m net stage data timestamp fs).errlog) ∧
    (∀ e comments ex s, net.getResult = Except.ok comments →
      comments.find? (fun c => containsStr c.body (comment_marker m)) = some ex →
      net.patchResult = Except.error e → validate_stage stage = Except.ok s →
      (update_comment m net stage data timestamp fs).ok = false ∧
      (update_comment m net stage data timestamp fs).errlog =
        ["❌ Error updating comment: " ++ e]) ∧
    (∀ e comments s, net.getResult = Except.ok comments →
      comments.find? (fun c => containsStr c.body (comment_marker m)) = none →
      validate_stage stage = Except.ok s →
      ¬ ((check_duplicate_comment_for_commit m net).1.isSome ∧ s = "started") →
      net.postResult = Except.error e →
      (update_comment m net stage data timestamp fs).ok = false ∧
      ("❌ Error updating comment: " ++ e) ∈
        (update_comment m net stage data timestamp fs).errlog) := by
  refine ⟨?_, ?_, ?_, ?_⟩
  · intro pe ev lg h
    rcases pe with msg | msg | msg
    · unfold update_comment
      rw [h]
      exact ⟨rfl, _, rfl⟩
    · unfold update_comment
      rw [h]
      exact ⟨rfl, _, rfl⟩
    · unfold update_comment
      rw [h]
      exact ⟨rfl, _, rfl⟩
  · intro e s hget hv
    obtain ⟨extra, hx⟩ := update_comment_errlog_extends m net stage data timestamp fs
    rw [hx]
    exact List.mem_append_left extra (try_fetch_diagnostic m net stage data timestamp fs e s hget hv)
  · intro e comments ex s hget hfind hpatch hv
    unfold update_comment update_comment_try
    rw [hv]
    simp only [get_existing_comment, hget]
    rw [hfind]
    simp only [build_comment_body_eq_ok]
    rw [hpatch]
    exact ⟨rfl, rfl⟩
  · intro e comments s hget hfind hv hdup hpost
    unfold update_comment update_comment_try
    rw [hv]
    simp only [get_existing_comment, hget]
    rw [hfind]
    simp only [build_comment_body_eq_ok]
    rw [if_neg hdup, hpost]
    refine ⟨rfl, ?_⟩
    simp

def cexNetReadFail : Net := ⟨Except.error "boom", Except.ok (), Except.ok ()⟩

/-- C3 counterexample: with a failing discovery read (and a working create),
`update_comment` for stage `setup` logs the read failure but returns `True` —
a network failure during sync that does not produce a Boolean failure result. -/
theorem C3_counterexample :
    cexNetReadFail.getResult = Except.error "boom" ∧
    (update_comment exManager cexNetReadFail "setup" [] "t" exFs).ok = true ∧
    (update_comment exManager cexNetReadFail "setup" [] "t" exFs).errlog =
      ["Error fetching comments: boom", "Error checking for duplicate comments: boom"] := by
  refine ⟨rfl, by decide, by decide⟩

/-- C3 witness: the amended handling at concrete inputs — the read-failure
diagnostic is logged, and a failing write yields a `False` result. -/
theorem C3_transport_handling_witness :
    ("Error fetching comments: boom") ∈
      (update_comment exManager cexNetReadFail "setup" [] "t" exFs).errlog ∧
    (update_comment exManager
      ⟨Except.ok [⟨3, "<!-- sgex-deployment-status-comment:run-1 --> x"⟩],
       Except.ok (), Except.error "down"⟩ "setup" [] "t" exFs).ok = false := by
  constructor
  · exact (C3_transport_handling exManager cexNetReadFail "setup" [] "t" exFs).2.1
      "boom" "setup" rfl rfl
  · exact ((C3_transport_handling exManager
      ⟨Except.ok [⟨3, "<!-- sgex-deployment-status-comment:run-1 --> x"⟩],
       Except.ok (), Except.error "down"⟩ "setup" [] "t" exFs).2.2.1
      "down" [⟨3, "<!-- sgex-deployment-status-comment:run-1 --> x"⟩]
      ⟨3, "<!-- sgex-deployment-status-comment:run-1 --> x"⟩ "setup"
      rfl (by decide) rfl rfl).1

/-! ### C8: the duplicate guard short-circuits without a write -/

/-- C8 (amended): when the commit SHA is configured, non-empty and not the
placeholder `'unknown'`, no listed comment carries this run's marker, some
listed comment carries the base marker together with the commit SHA, and the
stage is `started`, then `update_comment` returns success after the two reads
and issues no write. -/
theorem C8_duplicate_guard_skips_write (m : Manager) (net : Net) (data : Payload)
    (timestamp : String) (fs : String → Option String) (sha : String)
    (comments : List IssueComment)
    (hsha : m.commit_sha = some sha) (h1 : sha ≠ "") (h2 : sha ≠ "unknown")
    (hget : net.getResult = Except.ok comments)
    (hnomark : ∀ c ∈ comments, containsStr c.body (comment_marker m) = false)
    (hdup : ∃ c ∈ comments, (containsStr c.body COMMENT_MARKER_BASE &&
        (containsStr c.body (pyTakeStr 7 sha) || containsStr c.body sha)) = true) :
    (update_comment m net "started" data timestamp fs).ok = true ∧
    (update_comment m net "started" data timestamp fs).events =
      [NetEvent.getComments, NetEvent.getComments] := by
  have hv : validate_stage "started" = Except.ok "started" := rfl
  unfold update_comment update_comment_try
  rw [hv]
  simp only [get_existing_comment, hget]
  have hfind : comments.find? (fun c => containsStr c.body (comment_marker m)) = none := by
    rw [List.find?_eq_none]
    intro c hc
    simp [hnomark c hc]
  rw [hfind]
  have hdupev : check_duplicate_comment_for_commit m net =
      (comments.find? (fun c =>
        containsStr c.body COMMENT_MARKER_BASE &&
        (containsStr c.body (pyTakeStr 7 sha) || containsStr c.body sha) &&
        !containsStr c.body (comment_marker m)), [NetEvent.getComments], []) := by
    unfold check_duplicate_comment_for_commit
    rw [hsha]
    dsimp only
    rw [if_neg ?hcond, hget]
    case hcond =>
      rintro (h | h)
      · exact h1 h
      · exact h2 h
  have hsome : (comments.find? (fun c =>
      containsStr c.body COMMENT_MARKER_BASE &&
      (containsStr c.body (pyTakeStr 7 sha) || containsStr c.body sha) &&
      !containsStr c.body (comment_marker m))).isSome = true := by
    rw [List.find?_isSome]
    obtain ⟨c, hcmem, hcp⟩ := hdup
    refine ⟨c, hcmem, ?_⟩
    simp only [Bool.and_eq_true] at hcp ⊢
    exact ⟨hcp, by simp [hnomark c hcmem]⟩
  rw [hdupev]
  dsimp only
  rw [if_pos ⟨hsome, by trivial⟩]
  exact ⟨rfl, rfl⟩

def c8dup : IssueComment := ⟨7, "<!-- sgex-deployment-status-comment:zzz --> abc1234"⟩

def c8net : Net := ⟨Except.ok [c8dup], Except.ok (), Except.ok ()⟩

/-- C8 witness: the short-circuit at a concrete duplicate comment. -/
theorem C8_duplicate_guard_witness :
    (update_comment exManager c8net "started" [] "t" exFs).ok = true ∧
    (update_comment exManager c8net "started" [] "t" exFs).events =
      [NetEvent.getComments, NetEvent.getComments] :=
  C8_duplicate_guard_skips_write exManager c8net [] "t" exFs "abc1234" [c8dup]
    rfl (by decide) (by decide) rfl (by decide)
    ⟨c8dup, by decide, by decide⟩

def cexManagerU : Manager := ⟨"o", "r", 1, some "run-1", some "unknown", "W", "push"⟩

def cexDupBody : String := "<!-- sgex-deployment-status-comment:other --> unknown"

def cexNetU : Net := ⟨Except.ok [⟨5, cexDupBody⟩], Except.ok (), Except.ok ()⟩

/-- Distinguishes write requests from reads, for stating frame conditions. -/
def isWriteEvent : NetEvent → Bool
  | NetEvent.getComments => false
  | NetEvent.postComment _ => true
  | NetEvent.patchComment _ _ => true

/-- C8 counterexample: with the configured commit SHA equal to the `'unknown'`
placeholder, a foreign comment carries the base marker together with that
commit identifier and no comment carries this run's marker, the stage is
`started` — yet the guard is skipped and a write (create) is issued. -/
theorem C8_counterexample :
    cexManagerU.commit_sha = some "unknown" ∧
    containsStr cexDupBody COMMENT_MARKER_BASE = true ∧
    containsStr cexDupBody "unknown" = true ∧
    containsStr cexDupBody (comment_marker cexManagerU) = false ∧
    (update_comment cexManagerU cexNetU "started" [] "t" exFs).ok = true ∧
    ((update_comment cexManagerU cexNetU "started" [] "t" exFs).events.map isWriteEvent) =
      [false, true] := by
  refine ⟨rfl, by decide, by decide, by decide, by decide, by decide⟩

/-! ### Occurrence analysis for `findSubL` (towards C4/C5) -/

theorem findSubL_cons (pat : List Char) (c : Char) (t : List Char) :
    findSubL pat (c :: t) =
      if pat.isPrefixOf (c :: t) then some 0 else (findSubL pat t).map (· + 1) := rfl

theorem findSubL_cons_pos {pat : List Char} {c : Char} {t : List Char}
    (h : pat.isPrefixOf (c :: t) = true) : findSubL pat (c :: t) = some 0 := by
  rw [findSubL_cons, if_pos h]

theorem findSubL_cons_neg {pat : List Char} {c : Char} {t : List Char}
    (h : pat.isPrefixOf (c :: t) = false) :
    findSubL pat (c :: t) = (findSubL pat t).map (· + 1) := by
  rw [findSubL_cons, if_neg]
  simp [h]

theorem findSubL_append_shift (pat a b : List Char)
    (h : ∀ i, i < a.length → pat.isPrefixOf ((a ++ b).drop i) = false) :
    findSubL pat (a ++ b) = (findSubL pat b).map (· + a.length) := by
  induction a with
  | nil =>
    simp only [List.nil_append, List.length_nil]
    cases findSubL pat b <;> simp
  | cons c a' ih =>
    have h0 : pat.isPrefixOf (c :: (a' ++ b)) = false := by
      have := h 0 (by simp)
      simpa using this
    rw [List.cons_append, findSubL_cons_neg h0]
    have ih' := ih (fun i hi => by
      have := h (i + 1) (by simp only [List.length_cons]; omega)
      simpa using this)
    rw [ih']
    cases findSubL pat b with
    | none => simp
    | some k =>
      show some (k + a'.length + 1) = some (k + (a'.length + 1))
      congr 1

theorem isPrefixOf_append_self (pat z : List Char) : pat.isPrefixOf (pat ++ z) = true := by
  rw [List.isPrefixOf_iff_prefix]
  exact List.prefix_append _ _

/-- A pattern has no self-overlap when none of its proper non-trivial suffixes
is one of its prefixes; a decidable sufficient condition for the first
occurrence analysis below. -/
def noSelfOverlapB (pat : List Char) : Bool :=
  (List.range pat.length).all (fun k => decide (k = 0) || !((pat.drop k).isPrefixOf pat))

theorem noSelfOverlapB_spec {pat : List Char} (h : noSelfOverlapB pat = true)
    {k : Nat} (h1 : 0 < k) (h2 : k < pat.length) : ¬ (pat.drop k <+: pat) := by
  intro hp
  have hall := (List.all_eq_true.mp h) k (List.mem_range.mpr h2)
  simp only [Bool.or_eq_true, decide_eq_true_eq, Bool.not_eq_true'] at hall
  rcases hall with h0 | hno
  · omega
  · rw [← List.isPrefixOf_iff_prefix] at hp
    rw [hp] at hno
    exact absurd hno (by decide)

theorem no_occurrence_in_left {pat : List Char} (a z : List Char) {c : Char}
    (hover : noSelfOverlapB pat = true) (hc : c ∈ pat) (hca : c ∉ a)
    {i : Nat} (hi : i < a.length) :
    pat.isPrefixOf ((a ++ (pat ++ z)).drop i) = false := by
  cases hb : pat.isPrefixOf ((a ++ (pat ++ z)).drop i) with
  | false => rfl
  | true =>
    exfalso
    have hp : pat <+: (a ++ (pat ++ z)).drop i := List.isPrefixOf_iff_prefix.mp hb
    rw [List.drop_append_eq_append_drop] at hp
    have hia : i - a.length = 0 := by omega
    rw [hia, List.drop_zero] at hp
    have ha'len : 0 < (a.drop i).length := by
      rw [List.length_drop]
      omega
    have ha'pre : a.drop i <+: a.drop i ++ (pat ++ z) := List.prefix_append _ _
    rcases List.prefix_or_prefix_of_prefix hp ha'pre with hcase | hcase
    · exact hca (List.drop_subset i a (hcase.subset hc))
    · obtain ⟨t, ht⟩ := hcase
      by_cases hk : (a.drop i).length = pat.length
      · have ht0 : t = [] := by
          have hlen := congrArg List.length ht
          simp only [List.length_append] at hlen
          rw [← List.length_eq_zero]
          omega
        have hpa : pat = a.drop i := by
          rw [ht0, List.append_nil] at ht
          exact ht.symm
        exact hca (List.drop_subset i a (hpa ▸ hc))
      · have hklt : (a.drop i).length < pat.length := by
          have hlen := congrArg List.length ht
          simp only [List.length_append] at hlen
          omega
        have htd : t = pat.drop (a.drop i).length := by
          rw [← ht, List.drop_left]
        have htpre : t <+: pat ++ z := by
          have h2 : a.drop i ++ t <+: a.drop i ++ (pat ++ z) := ht ▸ hp
          exact (List.prefix_append_right_inj (a.drop i)).mp h2
        have htlen : t.length ≤ pat.length := by
          rw [htd, List.length_drop]
          omega
        have htpat : t <+: pat := by
          obtain ⟨w, hw⟩ := htpre
          have hteq : t = (pat ++ z).take t.length := by
            rw [← hw, List.take_left]
          rw [hteq, List.take_append_of_le_length htlen]
          exact List.take_prefix _ _
        exact noSelfOverlapB_spec hover ha'len hklt (htd ▸ htpat)

theorem findSubL_first_at_boundary (pat a z : List Char) {c : Char}
    (hover : noSelfOverlapB pat = true) (hc : c ∈ pat) (hca : c ∉ a) :
    findSubL pat (a ++ (pat ++ z)) = some a.length := by
  rw [findSubL_append_shift pat a (pat ++ z)
    (fun i hi => no_occurrence_in_left a z hover hc hca hi)]
  cases pat with
  | nil => exact absurd hc (by simp)
  | cons p ps =>
    have hpre : (p :: ps).isPrefixOf ((p :: ps) ++ z) = true := isPrefixOf_append_self _ _
    rw [List.cons_append] at hpre ⊢
    rw [findSubL_cons_pos hpre]
    simp

/-! ### Properties of `replaceL` -/

theorem replaceLAux_zero (pat rep : List Char) (l : List Char) :
    replaceLAux pat rep 0 l = l := rfl

theorem replaceLAux_succ_nil (pat rep : List Char) (f : Nat) :
    replaceLAux pat rep (f + 1) [] = [] := rfl

theorem replaceLAux_succ_cons (pat rep : List Char) (f : Nat) (c : Char) (rest : List Char) :
    replaceLAux pat rep (f + 1) (c :: rest) =
      if pat.isPrefixOf (c :: rest) && !pat.isEmpty then
        rep ++ replaceLAux pat rep f (rest.drop (pat.length - 1))
      else c :: replaceLAux pat rep f rest := rfl

theorem replaceLAux_fuel_inv (pat rep : List Char) :
    ∀ f1 f2 l, l.length ≤ f1 → l.length ≤ f2 →
      replaceLAux pat rep f1 l = replaceLAux pat rep f2 l := by
  intro f1
  induction f1 with
  | zero =>
    intro f2 l h1 _h2
    have hl : l = [] := by
      cases l with
      | nil => rfl
      | cons c t => simp at h1
    subst hl
    cases f2 <;> rfl
  | succ f ih =>
    intro f2 l h1 h2
    cases l with
    | nil => cases f2 <;> rfl
    | cons c rest =>
      cases f2 with
      | zero => simp at h2
      | succ f2' =>
        rw [replaceLAux_succ_cons, replaceLAux_succ_cons]
        simp only [List.length_cons] at h1 h2
        by_cases hcond : (pat.isPrefixOf (c :: rest) && !pat.isEmpty) = true
        · rw [if_pos hcond, if_pos hcond]
          congr 1
          exact ih f2' (rest.drop (pat.length - 1))
            (by rw [List.length_drop]; omega) (by rw [List.length_drop]; omega)
        · rw [if_neg hcond, if_neg hcond]
          congr 1
          exact ih f2' rest (by omega) (by omega)

theorem replaceL_nil (pat rep : List Char) : replaceL pat rep [] = [] := rfl

theorem replaceL_cons_pos {pat rep : List Char} {c : Char} {rest : List Char}
    (h : (pat.isPrefixOf (c :: rest) && !pat.isEmpty) = true) :
    replaceL pat rep (c :: rest) = rep ++ replaceL pat rep (rest.drop (pat.length - 1)) := by
  show replaceLAux pat rep (rest.length + 1) (c :: rest) = _
  rw [replaceLAux_succ_cons, if_pos h]
  congr 1
  exact replaceLAux_fuel_inv pat rep rest.length (rest.drop (pat.length - 1)).length _
    (by rw [List.length_drop]; omega) (le_refl _)

theorem replaceL_cons_neg {pat rep : List Char} {c : Char} {rest : List Char}
    (h : (pat.isPrefixOf (c :: rest) && !pat.isEmpty) = false) :
    replaceL pat rep (c :: rest) = c :: replaceL pat rep rest := by
  show replaceLAux pat rep (rest.length + 1) (c :: rest) = _
  rw [replaceLAux_succ_cons, if_neg (by simp [h])]
  rfl

theorem replaceL_id_of_not_mem {pat : List Char} (rep : List Char) {c : Char} {l : List Char}
    (hc : c ∈ pat) (hl : c ∉ l) : replaceL pat rep l = l := by
  induction l with
  | nil => rfl
  | cons d t ih =>
    have hpre : pat.isPrefixOf (d :: t) = false := by
      cases hb : pat.isPrefixOf (d :: t) with
      | false => rfl
      | true =>
        exfalso
        exact hl ((List.isPrefixOf_iff_prefix.mp hb).subset hc)
    rw [replaceL_cons_neg (by simp [hpre])]
    have hlt : c ∉ t := fun hm => hl (List.mem_cons_of_mem d hm)
    rw [ih hlt]

theorem mem_replaceL_aux (pat rep : List Char) :
    ∀ (n : Nat) (l : List Char), l.length ≤ n →
      ∀ c' ∈ replaceL pat rep l, c' ∈ l ∨ c' ∈ rep := by
  intro n
  induction n with
  | zero =>
    intro l hlen c' hc'
    have hl : l = [] := by
      cases l with
      | nil => rfl
      | cons c t => simp at hlen
    subst hl
    simp [replaceL_nil] at hc'
  | succ k ih =>
    intro l hlen c' hc'
    cases l with
    | nil => simp [replaceL_nil] at hc'
    | cons d t =>
      simp only [List.length_cons] at hlen
      by_cases hcond : (pat.isPrefixOf (d :: t) && !pat.isEmpty) = true
      · rw [replaceL_cons_pos hcond] at hc'
        rcases List.mem_append.mp hc' with h | h
        · exact Or.inr h
        · rcases ih (t.drop (pat.length - 1)) (by rw [List.length_drop]; omega) c' h with h' | h'
          · exact Or.inl (List.mem_cons_of_mem d (List.drop_subset _ t h'))
          · exact Or.inr h'
      · have hcond' : (pat.isPrefixOf (d :: t) && !pat.isEmpty) = false := by
          cases hb : (pat.isPrefixOf (d :: t) && !pat.isEmpty) with
          | false => rfl
          | true => exact absurd hb hcond
        rw [replaceL_cons_neg hcond'] at hc'
        rcases List.mem_cons.mp hc' with h | h
        · exact Or.inl (h ▸ List.mem_cons_self d t)
        · rcases ih t (by omega) c' h with h' | h'
          · exact Or.inl (List.mem_cons_of_mem d h')
          · exact Or.inr h'

theorem mem_of_mem_replaceL {pat rep : List Char} {l : List Char} {c' : Char}
    (h : c' ∈ replaceL pat rep l) : c' ∈ l ∨ c' ∈ rep :=
  mem_replaceL_aux pat rep l.length l (le_refl _) c' h

theorem replaceL_cons_nl (pat rep : List Char) (y : List Char)
    (hnl : '\n' ∉ pat) (hne : pat ≠ []) :
    replaceL pat rep ('\n' :: y) = '\n' :: replaceL pat rep y := by
  apply replaceL_cons_neg
  cases pat with
  | nil => exact absurd rfl hne
  | cons p ps =>
    have hp : (p == '\n') = false := by
      have : p ≠ '\n' := fun h => hnl (h ▸ List.mem_cons_self p ps)
      simp [this]
    simp [List.isPrefixOf, hp]

theorem replaceL_append_nl_aux (pat rep : List Char) (hnl : '\n' ∉ pat) (hne : pat ≠ []) :
    ∀ (n : Nat) (x y : List Char), x.length ≤ n →
      replaceL pat rep (x ++ '\n' :: y) =
        replaceL pat rep x ++ '\n' :: replaceL pat rep y := by
  intro n
  induction n with
  | zero =>
    intro x y hx
    have hx0 : x = [] := by
      cases x with
      | nil => rfl
      | cons c t => simp at hx
    subst hx0
    simp only [List.nil_append, replaceL_nil]
    exact replaceL_cons_nl pat rep y hnl hne
  | succ k ih =>
    intro x y hx
    cases x with
    | nil =>
      simp only [List.nil_append, replaceL_nil]
      exact replaceL_cons_nl pat rep y hnl hne
    | cons c x' =>
      simp only [List.length_cons] at hx
      rw [List.cons_append]
      have hie : pat.isEmpty = false := by
        cases pat with
        | nil => exact absurd rfl hne
        | cons p ps => rfl
      by_cases hcond : (pat.isPrefixOf (c :: (x' ++ '\n' :: y)) && !pat.isEmpty) = true
      · have hb : pat.isPrefixOf (c :: (x' ++ '\n' :: y)) = true := by
          have h2 := hcond
          simp only [Bool.and_eq_true] at h2
          exact h2.1
        have hpfull : pat <+: (c :: x') ++ ('\n' :: y) := List.isPrefixOf_iff_prefix.mp hb
        have hple : pat <+: c :: x' := by
          rcases List.prefix_or_prefix_of_prefix hpfull
              (List.prefix_append (c :: x') ('\n' :: y)) with hcase | hcase
          · exact hcase
          · obtain ⟨t, ht⟩ := hcase
            have htpre : t <+: '\n' :: y := by
              have h2 : (c :: x') ++ t <+: (c :: x') ++ ('\n' :: y) := ht ▸ hpfull
              exact (List.prefix_append_right_inj (c :: x')).mp h2
            have ht0 : t = [] := by
              cases t with
              | nil => rfl
              | cons u us =>
                exfalso
                obtain ⟨w, hw⟩ := htpre
                have hu : u = '\n' := by
                  have := congrArg List.head? hw
                  simpa using this
                apply hnl
                rw [← ht]
                exact List.mem_append_right _ (hu ▸ List.mem_cons_self u us)
            rw [ht0, List.append_nil] at ht
            exact ht ▸ List.prefix_refl pat
        have hlenle : pat.length ≤ x'.length + 1 := by
          have := hple.length_le
          simpa using this
        have hbx : pat.isPrefixOf (c :: x') = true := List.isPrefixOf_iff_prefix.mpr hple
        rw [replaceL_cons_pos hcond, replaceL_cons_pos (by simp [hbx, hie])]
        rw [List.drop_append_eq_append_drop]
        have hz : pat.length - 1 - x'.length = 0 := by omega
        rw [hz, List.drop_zero]
        rw [ih (x'.drop (pat.length - 1)) y (by rw [List.length_drop]; omega)]
        rw [List.append_assoc]
      · have hcond1 : (pat.isPrefixOf (c :: (x' ++ '\n' :: y)) && !pat.isEmpty) = false := by
          cases hb : (pat.isPrefixOf (c :: (x' ++ '\n' :: y)) && !pat.isEmpty) with
          | false => rfl
          | true => exact absurd hb hcond
        have hcond2 : (pat.isPrefixOf (c :: x') && !pat.isEmpty) = false := by
          cases hb : pat.isPrefixOf (c :: x') with
          | false => simp
          | true =>
            exfalso
            have hfull : pat.isPrefixOf (c :: (x' ++ '\n' :: y)) = true := by
              rw [List.isPrefixOf_iff_prefix] at hb ⊢
              exact hb.trans (List.prefix_append (c :: x') ('\n' :: y))
            rw [hfull, hie] at hcond1
            simp at hcond1
        rw [replaceL_cons_neg hcond1, replaceL_cons_neg hcond2]
        rw [List.cons_append]
        congr 1
        exact ih x' y (by omega)

theorem replaceL_append_nl (pat rep : List Char) (hnl : '\n' ∉ pat) (hne : pat ≠ [])
    (x y : List Char) :
    replaceL pat rep (x ++ '\n' :: y) =
      replaceL pat rep x ++ '\n' :: replaceL pat rep y :=
  replaceL_append_nl_aux pat rep hnl hne x.length x y (le_refl _)

/-! ### Joining and splitting timeline lines -/

/-- `'\n'`-intercalation on character lists (the shape taken by
`'\n'.join(...)` inside the timeline section). -/
def joinNL : List (List Char) → List Char
  | [] => []
  | [e] => e
  | e :: e2 :: rest => e ++ '\n' :: joinNL (e2 :: rest)

theorem joinNL_cons2 (a b : List Char) (l : List (List Char)) :
    joinNL (a :: b :: l) = a ++ '\n' :: joinNL (b :: l) := rfl

theorem pyJoin_nl_data (xs : List String) :
    (pyJoin "\n" xs).data = joinNL (xs.map String.data) := by
  induction xs with
  | nil => rfl
  | cons x t ih =>
    cases t with
    | nil => rfl
    | cons y rest =>
      show (x ++ "\n" ++ pyJoin "\n" (y :: rest)).data = _
      rw [String.data_append, String.data_append, ih]
      simp only [List.map_cons]
      rw [joinNL_cons2, List.append_assoc]
      rfl

theorem joinNL_cons_shape (y : List Char) (rest : List (List Char)) :
    ∃ t2, joinNL (y :: rest) = y ++ t2 := by
  cases rest with
  | nil => exact ⟨[], (List.append_nil y).symm⟩
  | cons z l => exact ⟨'\n' :: joinNL (z :: l), rfl⟩

theorem joinNL_append_singleton (xs : List (List Char)) (e : List Char) (h : xs ≠ []) :
    joinNL (xs ++ [e]) = joinNL xs ++ '\n' :: e := by
  induction xs with
  | nil => exact absurd rfl h
  | cons x t ih =>
    cases t with
    | nil => rfl
    | cons y rest =>
      show joinNL (x :: y :: (rest ++ [e])) = joinNL (x :: y :: rest) ++ '\n' :: e
      rw [joinNL_cons2, joinNL_cons2]
      rw [show joinNL (y :: (rest ++ [e])) = joinNL ((y :: rest) ++ [e]) from rfl]
      rw [ih (by simp), List.append_assoc, List.cons_append]

theorem joinNL_append_singleton_ne_nil (xs : List (List Char)) {e : List Char} (he : e ≠ []) :
    joinNL (xs ++ [e]) ≠ [] := by
  cases xs with
  | nil => exact he
  | cons x t =>
    rw [joinNL_append_singleton (x :: t) e (by simp)]
    simp

theorem joinNL_append_singleton_getLast (xs : List (List Char)) {e : List Char} (he : e ≠ []) :
    (joinNL (xs ++ [e])).getLast? = e.getLast? := by
  cases xs with
  | nil => rfl
  | cons x t =>
    rw [joinNL_append_singleton (x :: t) e (by simp)]
    rw [List.getLast?_append_of_ne_nil _ (by simp)]
    show (['\n'] ++ e).getLast? = e.getLast?
    rw [List.getLast?_append_of_ne_nil _ he]

/-- Unfolding equation for `pySplitCharL` on a cons cell. -/
theorem pySplitCharL_cons (sep c : Char) (t : List Char) :
    pySplitCharL sep (c :: t) =
      if c = sep then [] :: pySplitCharL sep t
      else
        match pySplitCharL sep t with
        | [] => [[c]]
        | g :: gs => (c :: g) :: gs := rfl

theorem pySplitCharL_no_sep {sep : Char} {x : List Char} (h : sep ∉ x) :
    pySplitCharL sep x = [x] := by
  induction x with
  | nil => rfl
  | cons c t ih =>
    have hc : c ≠ sep := fun he => h (he ▸ List.mem_cons_self c t)
    rw [pySplitCharL_cons, if_neg hc, ih (fun hm => h (List.mem_cons_of_mem c hm))]

theorem pySplitCharL_append {sep : Char} {x : List Char} (h : sep ∉ x) (y : List Char) :
    pySplitCharL sep (x ++ sep :: y) = x :: pySplitCharL sep y := by
  induction x with
  | nil =>
    show pySplitCharL sep (sep :: y) = [] :: pySplitCharL sep y
    rw [pySplitCharL_cons, if_pos rfl]
  | cons c t ih =>
    have hc : c ≠ sep := fun he => h (he ▸ List.mem_cons_self c t)
    rw [List.cons_append, pySplitCharL_cons, if_neg hc,
        ih (fun hm => h (List.mem_cons_of_mem c hm))]

theorem pySplitCharL_joinNL {es : List (List Char)} (hne : es ≠ [])
    (h : ∀ e ∈ es, '\n' ∉ e) :
    pySplitCharL '\n' (joinNL es) = es := by
  induction es with
  | nil => exact absurd rfl hne
  | cons e t ih =>
    cases t with
    | nil => exact pySplitCharL_no_sep (h e (List.mem_cons_self e []))
    | cons y rest =>
      rw [joinNL_cons2, pySplitCharL_append (h e (List.mem_cons_self e (y :: rest)))]
      rw [ih (by simp) (fun e2 hm => h e2 (List.mem_cons_of_mem e hm))]

/-! ### Strip no-ops -/

theorem dropWhile_eq_self_of_head {p : Char → Bool} {x : List Char} {d : Char}
    (h : x.head? = some d) (hp : p d = false) : x.dropWhile p = x := by
  cases x with
  | nil => simp at h
  | cons a t =>
    have ha : a = d := by simpa using h
    subst ha
    simp [List.dropWhile_cons, hp]

theorem pyStripL_eq_self {l : List Char} {c d : Char}
    (hhead : l.head? = some c) (hc : pyIsSpace c = false)
    (hlast : l.getLast? = some d) (hd : pyIsSpace d = false) :
    pyStripL l = l := by
  unfold pyStripL
  rw [dropWhile_eq_self_of_head hhead hc]
  rw [dropWhile_eq_self_of_head (by rw [List.head?_reverse]; exact hlast) hd]
  exact List.reverse_reverse l

/-! ### Locating the `"\n---"` terminator after the timeline entries -/

theorem isPrefixOf_head_false {p c : Char} (ps l : List Char) (h : p ≠ c) :
    (p :: ps).isPrefixOf (c :: l) = false := by
  have hb : (p == c) = false := by simp [h]
  show ((p == c) && ps.isPrefixOf l) = false
  rw [hb, Bool.false_and]

theorem findSubL_nl_skip {ps : List Char} {x : List Char} (h : '\n' ∉ x) (w : List Char) :
    findSubL ('\n' :: ps) (x ++ w) = (findSubL ('\n' :: ps) w).map (· + x.length) := by
  apply findSubL_append_shift
  intro i hi
  rw [List.drop_append_eq_append_drop]
  have hz : i - x.length = 0 := by omega
  rw [hz, List.drop_zero]
  cases hxd : x.drop i with
  | nil =>
    exfalso
    have := congrArg List.length hxd
    rw [List.length_drop] at this
    simp at this
    omega
  | cons d t =>
    have hd : d ∈ x := List.drop_subset i x (hxd ▸ List.mem_cons_self d t)
    have hdn : '\n' ≠ d := fun he => h (he ▸ hd)
    rw [List.cons_append]
    exact isPrefixOf_head_false ps (t ++ w) hdn

theorem findSubL_nldash_inner :
    ∀ (es : List (List Char)) (e0 tail : List Char),
      (∀ e ∈ (e0 :: es), ∃ u, e = '-' :: ' ' :: u) →
      (∀ e ∈ (e0 :: es), '\n' ∉ e) →
      (∃ u, tail = '-' :: '-' :: '-' :: u) →
      findSubL ['\n', '-', '-', '-'] (joinNL (e0 :: es) ++ '\n' :: tail) =
        some (joinNL (e0 :: es)).length := by
  intro es
  induction es with
  | nil =>
    intro e0 tail hgood hnl htail
    show findSubL ['\n', '-', '-', '-'] (e0 ++ '\n' :: tail) = some e0.length
    rw [findSubL_nl_skip (hnl e0 (List.mem_cons_self e0 []))]
    obtain ⟨u, hu⟩ := htail
    subst hu
    rw [findSubL_cons_pos (by simp [List.isPrefixOf])]
    simp
  | cons y rest ih =>
    intro e0 tail hgood hnl htail
    rw [joinNL_cons2, List.append_assoc, List.cons_append]
    rw [findSubL_nl_skip (hnl e0 (List.mem_cons_self e0 (y :: rest)))]
    obtain ⟨w, hw⟩ := joinNL_cons_shape y rest
    obtain ⟨u, hu⟩ := hgood y (List.mem_cons_of_mem e0 (List.mem_cons_self y rest))
    have hshape : joinNL (y :: rest) ++ '\n' :: tail = '-' :: ' ' :: (u ++ w ++ '\n' :: tail) := by
      rw [hw, hu]
      simp
    have hstep : findSubL ['\n', '-', '-', '-']
        ('\n' :: (joinNL (y :: rest) ++ '\n' :: tail)) =
        (findSubL ['\n', '-', '-', '-'] (joinNL (y :: rest) ++ '\n' :: tail)).map (· + 1) := by
      apply findSubL_cons_neg
      rw [hshape]
      simp [List.isPrefixOf]
    rw [hstep]
    rw [ih y tail (fun e hm => hgood e (List.mem_cons_of_mem e0 hm))
        (fun e hm => hnl e (List.mem_cons_of_mem e0 hm)) htail]
    show some ((joinNL (y :: rest)).length + 1 + e0.length) = _
    rw [List.length_append, List.length_cons]
    congr 1
    omega

theorem findSubL_nldash (es : List (List Char)) (e0 tail : List Char)
    (hgood : ∀ e ∈ (e0 :: es), ∃ u, e = '-' :: ' ' :: u)
    (hnl : ∀ e ∈ (e0 :: es), '\n' ∉ e)
    (htail : ∃ u, tail = '-' :: '-' :: '-' :: u) :
    findSubL ['\n', '-', '-', '-']
      ('\n' :: '\n' :: (joinNL (e0 :: es) ++ '\n' :: tail)) =
      some (2 + (joinNL (e0 :: es)).length) := by
  obtain ⟨w, hw⟩ := joinNL_cons_shape e0 es
  obtain ⟨u, hu⟩ := hgood e0 (List.mem_cons_self e0 es)
  have hshape : joinNL (e0 :: es) ++ '\n' :: tail = '-' :: ' ' :: (u ++ w ++ '\n' :: tail) := by
    rw [hw, hu]
    simp
  have h0 : findSubL ['\n', '-', '-', '-']
      ('\n' :: '\n' :: (joinNL (e0 :: es) ++ '\n' :: tail)) =
      (findSubL ['\n', '-', '-', '-']
        ('\n' :: (joinNL (e0 :: es) ++ '\n' :: tail))).map (· + 1) := by
    apply findSubL_cons_neg
    simp [List.isPrefixOf]
  have h1 : findSubL ['\n', '-', '-', '-']
      ('\n' :: (joinNL (e0 :: es) ++ '\n' :: tail)) =
      (findSubL ['\n', '-', '-', '-'] (joinNL (e0 :: es) ++ '\n' :: tail)).map (· + 1) := by
    apply findSubL_cons_neg
    rw [hshape]
    simp [List.isPrefixOf]
  rw [h0, h1, findSubL_nldash_inner es e0 tail hgood hnl htail]
  show some ((joinNL (e0 :: es)).length + 1 + 1) = _
  congr 1
  omega

/-! ### The timeline invariant carried across calls -/

theorem dropWhile_append_singleton {p : Char → Bool} {a : Char} (ha : p a = false)
    (xs : List Char) : (xs ++ [a]).dropWhile p = xs.dropWhile p ++ [a] := by
  induction xs with
  | nil => simp [List.dropWhile, ha]
  | cons c t ih =>
    by_cases hc : p c = true
    · simp [List.dropWhile_cons, hc, ih]
    · simp only [Bool.not_eq_true] at hc
      simp [List.dropWhile_cons, hc]

theorem pyStripL_head_not_space {c : Char} (t : List Char) (hc : pyIsSpace c = false) :
    ∃ u, pyStripL (c :: t) = c :: u := by
  unfold pyStripL
  rw [dropWhile_eq_self_of_head (show (c :: t).head? = some c from rfl) hc]
  rw [List.reverse_cons, dropWhile_append_singleton hc, List.reverse_append]
  exact ⟨(t.reverse.dropWhile pyIsSpace).reverse, rfl⟩

/-- A well-formed rendered timeline entry: it starts with the literal `"- **"`
of every stage template and spans a single line. -/
def goodEntry (e : String) : Prop :=
  (∃ u, e.data = '-' :: ' ' :: '*' :: '*' :: u) ∧ '\n' ∉ e.data

/-- The last character of the line is not whitespace (so `.strip()` in the
next extraction leaves it intact). -/
def lastCharOk (e : String) : Prop :=
  ∃ d, e.data.getLast? = some d ∧ pyIsSpace d = false

/-- Invariant tying the timeline string extracted from a rendered body to the
list of its entry lines. -/
def TimelineWF (tl : String) (es : List String) : Prop :=
  tl.data = timelineHeader.data ++ '\n' :: '\n' :: joinNL (es.map String.data) ∧
  es ≠ [] ∧ (∀ e ∈ es, goodEntry e) ∧
  (∃ elast, es.getLast? = some elast ∧ lastCharOk elast)

theorem replaceOrange_fourchar (u : List Char) :
    replaceL (" - 🟠 " : String).data (" - 🟢 " : String).data ('-' :: ' ' :: '*' :: '*' :: u) =
      '-' :: ' ' :: '*' :: '*' :: replaceL (" - 🟠 " : String).data (" - 🟢 " : String).data u := by
  have hp : (" - 🟠 " : String).data = [' ', '-', ' ', '🟠', ' '] := rfl
  rw [replaceL_cons_neg (by rw [hp]; simp [List.isPrefixOf]),
      replaceL_cons_neg (by rw [hp]; simp [List.isPrefixOf]),
      replaceL_cons_neg (by rw [hp]; simp [List.isPrefixOf]),
      replaceL_cons_neg (by rw [hp]; simp [List.isPrefixOf])]

theorem goodEntry_replace {e : String} (h : goodEntry e) :
    goodEntry (pyReplace e " - 🟠 " " - 🟢 ") := by
  obtain ⟨⟨u, hu⟩, hnl⟩ := h
  constructor
  · refine ⟨replaceL (" - 🟠 " : String).data (" - 🟢 " : String).data u, ?_⟩
    show replaceL (" - 🟠 " : String).data (" - 🟢 " : String).data e.data = _
    rw [hu]
    exact replaceOrange_fourchar u
  · intro hmem
    rcases mem_of_mem_replaceL hmem with h' | h'
    · exact hnl h'
    · exact absurd h' (by decide)

theorem replaceL_joinNL {pat rep : List Char} (hnl : '\n' ∉ pat) (hne : pat ≠ [])
    {es : List (List Char)} (h : ∀ e ∈ es, '\n' ∉ e) :
    replaceL pat rep (joinNL es) = joinNL (es.map (replaceL pat rep)) := by
  induction es with
  | nil => rfl
  | cons e t ih =>
    cases t with
    | nil => rfl
    | cons y rest =>
      rw [joinNL_cons2, replaceL_append_nl pat rep hnl hne,
          ih (fun e2 hm => h e2 (List.mem_cons_of_mem e hm))]
      simp only [List.map_cons]
      rw [joinNL_cons2]

theorem string_ne_empty_of_data {tl : String} {c : Char} {t : List Char}
    (h : tl.data = c :: t) : tl ≠ "" := by
  intro he
  rw [he] at h
  simp at h

theorem updatedTimeline_of_WF {tl : String} {es : List String} (hwf : TimelineWF tl es)
    (stage : String) :
    (updatedTimeline tl stage).data =
      timelineHeader.data ++ '\n' :: '\n' ::
        joinNL ((es.map (fun e => pyReplace e " - 🟠 " " - 🟢 ")).map String.data) := by
  obtain ⟨hdata, hne, hgood, _⟩ := hwf
  have htlne : tl ≠ "" := string_ne_empty_of_data (by rw [hdata]; rfl)
  have hstep : updatedTimeline tl stage = pyReplace tl " - 🟠 " " - 🟢 " := by
    unfold updatedTimeline update_timeline_status
    rw [if_pos htlne, if_neg htlne]
  rw [hstep]
  show replaceL (" - 🟠 " : String).data (" - 🟢 " : String).data tl.data = _
  rw [hdata]
  have hnlpat : '\n' ∉ (" - 🟠 " : String).data := by decide
  have hnepat : (" - 🟠 " : String).data ≠ [] := by decide
  rw [replaceL_append_nl _ _ hnlpat hnepat]
  have hhdr : replaceL (" - 🟠 " : String).data (" - 🟢 " : String).data
      timelineHeader.data = timelineHeader.data :=
    replaceL_id_of_not_mem _ (show '🟠' ∈ (" - 🟠 " : String).data by decide) (by decide)
  rw [hhdr]
  congr 1
  show '\n' :: replaceL _ _ ('\n' :: joinNL (es.map String.data)) = _
  rw [replaceL_cons_nl _ _ _ hnlpat hnepat]
  congr 1
  rw [replaceL_joinNL hnlpat hnepat (fun e hm => ?_)]
  · rw [List.map_map, List.map_map]
    rfl
  · obtain ⟨e2, he2, he2d⟩ := List.mem_map.mp hm
    exact fun hc => ((hgood e2 he2).2 (he2d ▸ hc))

theorem data_map_mk (l : List (List Char)) : (l.map String.mk).map String.data = l := by
  simp [List.map_map]
  exact List.map_id l

theorem timeline_lines_eq {tl' : String} {esD : List (List Char)}
    (hdata : tl'.data = timelineHeader.data ++ '\n' :: '\n' :: joinNL esD)
    (hne : esD ≠ [])
    (hgood : ∀ e ∈ esD, (∃ u, e = '-' :: ' ' :: u) ∧ '\n' ∉ e) :
    timeline_lines tl' = esD.map String.mk := by
  unfold timeline_lines pySplitChar
  rw [hdata]
  rw [pySplitCharL_append (show '\n' ∉ timelineHeader.data by decide)]
  rw [show pySplitCharL '\n' ('\n' :: joinNL esD) = [] :: pySplitCharL '\n' (joinNL esD) from
    by rw [pySplitCharL_cons, if_pos rfl]]
  rw [pySplitCharL_joinNL hne (fun e hm => (hgood e hm).2)]
  rw [List.map_cons, List.map_cons]
  rw [List.filter_cons_of_neg (by decide), List.filter_cons_of_neg (by decide)]
  apply List.filter_eq_self.mpr
  intro x hm
  obtain ⟨e, he, hxe⟩ := List.mem_map.mp hm
  obtain ⟨⟨u, hu⟩, _⟩ := hgood e he
  subst hxe
  show pyStartsWith (pyStrip (String.mk e)) "-" = true
  have hstrip : pyStrip (String.mk e) = ⟨pyStripL e⟩ := rfl
  rw [hstrip, hu]
  obtain ⟨u2, hu2⟩ := pyStripL_head_not_space (' ' :: u) (show pyIsSpace '-' = false by decide)
  show ("-" : String).data.isPrefixOf (pyStripL ('-' :: ' ' :: u)) = true
  rw [hu2]
  simp [List.isPrefixOf]

theorem map_mk_map_data (l : List String) : (l.map String.data).map String.mk = l := by
  have hcomp : (String.mk ∘ String.data) = id := funext (fun s => rfl)
  rw [List.map_map, hcomp, List.map_id]

theorem findSubL_nldash_list (es : List (List Char)) (tail : List Char) (hne : es ≠ [])
    (hgood : ∀ e ∈ es, ∃ u, e = '-' :: ' ' :: u)
    (hnl : ∀ e ∈ es, '\n' ∉ e)
    (htail : ∃ u, tail = '-' :: '-' :: '-' :: u) :
    findSubL ['\n', '-', '-', '-'] ('\n' :: '\n' :: (joinNL es ++ '\n' :: tail)) =
      some (2 + (joinNL es).length) := by
  cases es with
  | nil => exact absurd rfl hne
  | cons e0 rest => exact findSubL_nldash rest e0 tail hgood hnl htail

theorem timeline_section_data_of_WF {tl : String} {es : List String} (hwf : TimelineWF tl es)
    (stage : String) (entry : String) :
    (timeline_section_of (updatedTimeline tl stage) entry).data =
      timelineHeader.data ++ '\n' :: '\n' ::
        (joinNL (((es.map (fun e => pyReplace e " - 🟠 " " - 🟢 ")).map String.data) ++
          [entry.data]) ++ ['\n']) := by
  have hupd := updatedTimeline_of_WF hwf stage
  have hne' : (es.map (fun e => pyReplace e " - 🟠 " " - 🟢 ")).map String.data ≠ [] := by
    simp [hwf.2.1]
  have hgood' : ∀ e ∈ (es.map (fun e => pyReplace e " - 🟠 " " - 🟢 ")).map String.data,
      (∃ u, e = '-' :: ' ' :: u) ∧ '\n' ∉ e := by
    intro e hm
    obtain ⟨e1, he1, he1d⟩ := List.mem_map.mp hm
    obtain ⟨e0, he0, he0e⟩ := List.mem_map.mp he1
    have hg : goodEntry e1 := he0e ▸ goodEntry_replace (hwf.2.2.1 e0 he0)
    obtain ⟨⟨u, hu⟩, hnl⟩ := hg
    subst he1d
    exact ⟨⟨'*' :: '*' :: u, hu⟩, hnl⟩
  have hlines := timeline_lines_eq hupd hne' hgood'
  have hupdne : updatedTimeline tl stage ≠ "" :=
    string_ne_empty_of_data (by rw [hupd]; rfl)
  unfold timeline_section_of
  rw [if_pos hupdne, hlines]
  rw [show pyJoin "\n" (((es.map (fun e => pyReplace e " - 🟠 " " - 🟢 ")).map String.data).map
      String.mk) = pyJoin "\n" (es.map (fun e => pyReplace e " - 🟠 " " - 🟢 ")) from
    by rw [map_mk_map_data]]
  rw [show (timelineHeader ++ "\n\n" ++
      (pyJoin "\n" (es.map (fun e => pyReplace e " - 🟠 " " - 🟢 ")) ++ "\n") ++ entry ++
      "\n").data = timelineHeader.data ++ ('\n' :: '\n' :: ((pyJoin "\n"
        (es.map (fun e => pyReplace e " - 🟠 " " - 🟢 "))).data ++ ('\n' :: (entry.data ++
        ['\n'])))) from by simp [String.data_append]]
  rw [pyJoin_nl_data]
  rw [joinNL_append_singleton _ _ hne']
  simp [List.append_assoc]

theorem timeline_section_data_empty (stage : String) (entry : String) :
    (timeline_section_of (updatedTimeline "" stage) entry).data =
      timelineHeader.data ++ '\n' :: '\n' :: (joinNL [entry.data] ++ ['\n']) := by
  have h0 : updatedTimeline "" stage = "" := rfl
  rw [h0]
  unfold timeline_section_of
  rw [if_neg (by simp)]
  show (timelineHeader ++ "\n\n" ++ "" ++ entry ++ "\n").data = _
  simp [String.data_append, joinNL]

theorem extract_eval {body : String} {i j : Nat}
    (h1 : pyFind body timelineHeader = some i)
    (h2 : pyFindFrom body "\n---" (i + timelineHeader.length) = some j) :
    extract_timeline_from_comment body = pyStrip (pySliceStr body i j) := by
  unfold extract_timeline_from_comment
  rw [h1]
  dsimp only
  rw [h2]
theorem extract_assembled (m : Manager) (stage : String) (data : Payload)
    (tl ts : String) (fs : String → Option String) (es : List String)
    (hwf : TimelineWF tl es ∨ (tl = "" ∧ es = []))
    (hpre : '📋' ∉ (bodyPre m stage data ts fs).data)
    (hgoodE : goodEntry (builtEntry m stage data ts fs))
    (hlastE : lastCharOk (builtEntry m stage data ts fs)) :
    TimelineWF (extract_timeline_from_comment (assembled m stage data tl ts fs))
      (es.map (fun e => pyReplace e " - 🟠 " " - 🟢 ") ++ [builtEntry m stage data ts fs]) := by
  set newE := builtEntry m stage data ts fs with hnewE
  set es' := es.map (fun e => pyReplace e " - 🟠 " " - 🟢 ") with hes'
  set allD := es'.map String.data ++ [newE.data] with hallD
  have hallD2 : allD = (es' ++ [newE]).map String.data := by
    rw [hallD]; simp
  have hgall : ∀ e ∈ es' ++ [newE], goodEntry e := by
    intro e hm
    rcases List.mem_append.mp hm with h | h
    · rw [hes'] at h
      obtain ⟨e0, he0, he0e⟩ := List.mem_map.mp h
      rcases hwf with hwf1 | ⟨_, hes0⟩
      · exact he0e ▸ goodEntry_replace (hwf1.2.2.1 e0 he0)
      · rw [hes0] at he0; simp at he0
    · rw [List.mem_singleton.mp h]; exact hgoodE
  have hgoodAll : ∀ d ∈ allD, ∃ u, d = '-' :: ' ' :: u := by
    intro d hd
    rw [hallD2] at hd
    obtain ⟨e, he, hde⟩ := List.mem_map.mp hd
    obtain ⟨⟨u, hu⟩, _⟩ := hgall e he
    exact ⟨'*' :: '*' :: u, hde ▸ hu⟩
  have hnlAll : ∀ d ∈ allD, '\n' ∉ d := by
    intro d hd
    rw [hallD2] at hd
    obtain ⟨e, he, hde⟩ := List.mem_map.mp hd
    exact hde ▸ (hgall e he).2
  have hneAll : allD ≠ [] := by rw [hallD]; simp
  have hTS : (timeline_section_of (updatedTimeline tl stage) newE).data =
      timelineHeader.data ++ '\n' :: '\n' :: (joinNL allD ++ ['\n']) := by
    rcases hwf with hwf1 | ⟨htl0, hes0⟩
    · rw [hallD, hes']
      exact timeline_section_data_of_WF hwf1 stage newE
    · rw [htl0, hallD, hes', hes0]
      simp only [List.map_nil, List.nil_append]
      exact timeline_section_data_empty stage newE
  set A := (bodyPre m stage data ts fs).data ++ ['\n', '-', '-', '-', '\n', '\n'] with hA
  have hbody : (assembled m stage data tl ts fs).data =
      A ++ (timelineHeader.data ++ ('\n' :: '\n' :: (joinNL allD ++ '\n' :: bodyFoot.data))) := by
    show (bodyPre m stage data ts fs ++ ("\n---\n\n" ++
      (timeline_section_of (updatedTimeline tl stage) newE ++ bodyFoot))).data = _
    rw [String.data_append, String.data_append, String.data_append, hTS, hA]
    rw [show ("\n---\n\n" : String).data = ['\n', '-', '-', '-', '\n', '\n'] from rfl]
    simp [List.append_assoc]
  have hApre : '📋' ∉ A := by
    rw [hA]
    intro hmem
    rcases List.mem_append.mp hmem with h | h
    · exact hpre h
    · exact absurd h (by decide)
  have hfindH : pyFind (assembled m stage data tl ts fs) timelineHeader = some A.length := by
    show findSubL timelineHeader.data (assembled m stage data tl ts fs).data = some A.length
    rw [hbody]
    exact findSubL_first_at_boundary timelineHeader.data A _ (by decide)
      (show '📋' ∈ timelineHeader.data by decide) hApre
  have hdrop : (assembled m stage data tl ts fs).data.drop (A.length + timelineHeader.length) =
      '\n' :: '\n' :: (joinNL allD ++ '\n' :: bodyFoot.data) := by
    rw [hbody, ← List.append_assoc]
    rw [show A.length + timelineHeader.length = (A ++ timelineHeader.data).length from by
      show A.length + timelineHeader.data.length = (A ++ timelineHeader.data).length
      exact (List.length_append _ _).symm]
    exact List.drop_left _ _
  have htail : ∃ u, bodyFoot.data = '-' :: '-' :: '-' :: u :=
    ⟨bodyFoot.data.drop 3, by decide⟩
  have hfindD : pyFindFrom (assembled m stage data tl ts fs) "\n---"
      (A.length + timelineHeader.length) =
      some (A.length + timelineHeader.length + (2 + (joinNL allD).length)) := by
    unfold pyFindFrom
    rw [hdrop]
    rw [show ("\n---" : String).data = ['\n', '-', '-', '-'] from rfl]
    rw [findSubL_nldash_list allD bodyFoot.data hneAll hgoodAll hnlAll htail]
    show some (2 + (joinNL allD).length + (A.length + timelineHeader.length)) = _
    congr 1
    omega
  have hsdata : (pySliceStr (assembled m stage data tl ts fs) A.length
      (A.length + timelineHeader.length + (2 + (joinNL allD).length))).data =
      timelineHeader.data ++ '\n' :: '\n' :: joinNL allD := by
    show ((assembled m stage data tl ts fs).data.drop A.length).take
      (A.length + timelineHeader.length + (2 + (joinNL allD).length) - A.length) = _
    rw [hbody, List.drop_left]
    rw [show A.length + timelineHeader.length + (2 + (joinNL allD).length) - A.length =
      timelineHeader.data.length + (2 + (joinNL allD).length) from by
        rw [show timelineHeader.length = timelineHeader.data.length from rfl]; omega]
    rw [List.take_append]
    congr 1
    rw [show 2 + (joinNL allD).length = (joinNL allD).length + 1 + 1 from by omega]
    rw [List.take_succ_cons, List.take_succ_cons, List.take_left]
  have hnewEne : newE.data ≠ [] := by
    obtain ⟨⟨u, hu⟩, _⟩ := hgoodE
    rw [hu]; simp
  have hJne : joinNL allD ≠ [] := by
    rw [hallD]
    exact joinNL_append_singleton_ne_nil _ hnewEne
  have hstripid : pyStripL (timelineHeader.data ++ '\n' :: '\n' :: joinNL allD) =
      timelineHeader.data ++ '\n' :: '\n' :: joinNL allD := by
    have hl2 : ∃ d, newE.data.getLast? = some d ∧ pyIsSpace d = false := hlastE
    obtain ⟨d, hd, hdns⟩ := hl2
    apply pyStripL_eq_self (c := '#') (d := d)
    · rw [show timelineHeader.data = '#' :: ("## 📋 Deployment Timeline" : String).data from rfl,
        List.cons_append]
      rfl
    · decide
    · rw [List.getLast?_append_of_ne_nil _ (by simp)]
      show (['\n', '\n'] ++ joinNL allD).getLast? = some d
      rw [List.getLast?_append_of_ne_nil _ hJne]
      rw [hallD, joinNL_append_singleton_getLast _ hnewEne]
      exact hd
    · exact hdns
  refine ⟨?_, by simp, hgall, ⟨newE, List.getLast?_concat _, hlastE⟩⟩
  rw [extract_eval hfindH hfindD]
  show pyStripL ((pySliceStr (assembled m stage data tl ts fs) A.length
    (A.length + timelineHeader.length + (2 + (joinNL allD).length))).data) =
    timelineHeader.data ++ '\n' :: '\n' :: joinNL ((es' ++ [newE]).map String.data)
  rw [hsdata, hstripid, ← hallD2]

/-! ### Chains of `build_comment_body` calls feeding the extracted timeline
forward (the scenario of the timeline-monotonicity and glyph-rewrite
properties) -/

/-- One call to `build_comment_body`: the stage, the payload and the timestamp
taken at that call. -/
structure Call where
  stage : String
  data : Payload
  ts : String

/-- Run a sequence of calls, each call building its body from the timeline
extracted out of the previous call's rendered body (starting from `tl`), and
return the timeline extracted from the last body.  A body rejected by the
marker check would abort the chain (this branch is unreachable, see
`build_comment_body_eq_ok`). -/
def runChain (m : Manager) (fs : String → Option String) : String → List Call → String
  | tl, [] => tl
  | tl, c :: rest =>
    match build_comment_body m c.stage c.data tl c.ts fs with
    | Except.ok body => runChain m fs (extract_timeline_from_comment body) rest
    | Except.error _ => tl

/-- The entry lines the chain is expected to accumulate: at each call every
prior entry undergoes the `" - 🟠 " → " - 🟢 "` glyph rewrite and the call's
freshly rendered entry is appended. -/
def expectedEntries (m : Manager) (fs : String → Option String) :
    List String → List Call → List String
  | acc, [] => acc
  | acc, c :: rest =>
    expectedEntries m fs
      (acc.map (fun e => pyReplace e " - 🟠 " " - 🟢 ") ++
        [builtEntry m c.stage c.data c.ts fs]) rest

/-- Decidable well-formedness of a rendered timeline entry: it starts with the
literal `"- **"`, spans a single line, and its last character is not
whitespace (so extraction's `.strip()` cannot clip it). -/
def entryOkB (e : String) : Bool :=
  ['-', ' ', '*', '*'].isPrefixOf e.data && !e.data.contains '\n' &&
    (match e.data.getLast? with
     | some d => !pyIsSpace d
     | none => false)

theorem contains_false_not_mem {c : Char} {l : List Char} (h : l.contains c = false) :
    c ∉ l := by
  intro hm
  have h2 : l.contains c = true := List.elem_iff.mpr hm
  rw [h2] at h
  simp at h

theorem entryOkB_good {e : String} (h : entryOkB e = true) : goodEntry e ∧ lastCharOk e := by
  unfold entryOkB at h
  rcases hl : e.data.getLast? with _ | d
  · rw [hl] at h
    simp at h
  · rw [hl] at h
    simp only [Bool.and_eq_true, Bool.not_eq_true'] at h
    obtain ⟨⟨hp, hnl⟩, hd⟩ := h
    obtain ⟨t, ht⟩ := List.isPrefixOf_iff_prefix.mp hp
    exact ⟨⟨⟨t, ht.symm⟩, contains_false_not_mem hnl⟩, d, hl, hd⟩

theorem timeline_lines_of_WF {tl : String} {es : List String} (hwf : TimelineWF tl es) :
    timeline_lines tl = es := by
  obtain ⟨hdata, hne, hgood, _⟩ := hwf
  have hg : ∀ e ∈ es.map String.data, (∃ u, e = '-' :: ' ' :: u) ∧ '\n' ∉ e := by
    intro e hm
    obtain ⟨e0, he0, hde⟩ := List.mem_map.mp hm
    obtain ⟨⟨u, hu⟩, hnl⟩ := hgood e0 he0
    exact ⟨⟨'*' :: '*' :: u, hde ▸ hu⟩, hde ▸ hnl⟩
  rw [timeline_lines_eq hdata (by simp [hne]) hg, map_mk_map_data]

theorem runChain_WF (m : Manager) (fs : String → Option String) :
    ∀ (calls : List Call) (tl : String) (es : List String),
      (TimelineWF tl es ∨ (tl = "" ∧ es = [])) →
      (∀ c ∈ calls, entryOkB (builtEntry m c.stage c.data c.ts fs) = true ∧
        (bodyPre m c.stage c.data c.ts fs).data.contains '📋' = false) →
      calls ≠ [] →
      TimelineWF (runChain m fs tl calls) (expectedEntries m fs es calls) := by
  intro calls
  induction calls with
  | nil => intro tl es _ _ hne; exact absurd rfl hne
  | cons c rest ih =>
    intro tl es hinv hok _
    obtain ⟨hcE, hcP⟩ := hok c (List.mem_cons_self c rest)
    obtain ⟨hgood, hlast⟩ := entryOkB_good hcE
    have hstep : TimelineWF
        (extract_timeline_from_comment (assembled m c.stage c.data tl c.ts fs))
        (es.map (fun e => pyReplace e " - 🟠 " " - 🟢 ") ++
          [builtEntry m c.stage c.data c.ts fs]) :=
      extract_assembled m c.stage c.data tl c.ts fs es hinv
        (contains_false_not_mem hcP) hgood hlast
    have hrun : runChain m fs tl (c :: rest) =
        runChain m fs
          (extract_timeline_from_comment (assembled m c.stage c.data tl c.ts fs)) rest := by
      show (match build_comment_body m c.stage c.data tl c.ts fs with
            | Except.ok body => runChain m fs (extract_timeline_from_comment body) rest
            | Except.error _ => tl) = _
      rw [build_comment_body_eq_ok]
    rw [hrun]
    cases rest with
    | nil => exact hstep
    | cons c2 rest2 =>
      exact ih _ _ (Or.inl hstep) (fun c3 hm => hok c3 (List.mem_cons_of_mem c hm)) (by simp)

theorem expectedEntries_length (m : Manager) (fs : String → Option String) :
    ∀ (calls : List Call) (acc : List String),
      (expectedEntries m fs acc calls).length = acc.length + calls.length := by
  intro calls
  induction calls with
  | nil => intro acc; simp [expectedEntries]
  | cons c rest ih =>
    intro acc
    show (expectedEntries m fs
      (acc.map (fun e => pyReplace e " - 🟠 " " - 🟢 ") ++
        [builtEntry m c.stage c.data c.ts fs]) rest).length = acc.length + (c :: rest).length
    rw [ih]
    simp
    omega

theorem runChain_append (m : Manager) (fs : String → Option String) :
    ∀ (xs ys : List Call) (tl : String),
      runChain m fs tl (xs ++ ys) = runChain m fs (runChain m fs tl xs) ys := by
  intro xs
  induction xs with
  | nil => intro ys tl; rfl
  | cons x rest ih =>
    intro ys tl
    show (match build_comment_body m x.stage x.data tl x.ts fs with
          | Except.ok body => runChain m fs (extract_timeline_from_comment body) (rest ++ ys)
          | Except.error _ => tl) =
        runChain m fs
          (match build_comment_body m x.stage x.data tl x.ts fs with
           | Except.ok body => runChain m fs (extract_timeline_from_comment body) rest
           | Except.error _ => tl) ys
    rw [build_comment_body_eq_ok]
    exact ih ys _

/-- C4 (amended): timeline monotonicity under well-formed rendered entries.
For every non-empty sequence of `build_comment_body` calls in which each call's
existing timeline is the one extracted (by `extract_timeline_from_comment`)
from the previous call's rendered body, provided every call renders a
single-line `"- **"`-shaped timeline entry ending in a non-whitespace
character and a pre-timeline body part free of the `'📋'` anchor character,
the timeline carried by the N-th rendered body consists of exactly N entry
lines, in call order: at every step each previously appended entry is kept (up
to the `" - 🟠 " → " - 🟢 "` glyph rewrite) and exactly the one new entry is
appended.  Without the single-line proviso the count is wrong, see the
counterexample. -/
theorem C4_timeline_monotonicity (m : Manager) (fs : String → Option String)
    (calls : List Call) (hne : calls ≠ [])
    (hok : ∀ c ∈ calls, entryOkB (builtEntry m c.stage c.data c.ts fs) = true ∧
      (bodyPre m c.stage c.data c.ts fs).data.contains '📋' = false) :
    timeline_lines (runChain m fs "" calls) = expectedEntries m fs [] calls ∧
    (expectedEntries m fs [] calls).length = calls.length := by
  have hwf := runChain_WF m fs calls "" [] (Or.inr ⟨rfl, rfl⟩) hok hne
  refine ⟨timeline_lines_of_WF hwf, ?_⟩
  rw [expectedEntries_length]
  simp

/-- C4 witness: the amended theorem at a concrete two-call chain
(`started` then `success`). -/
theorem C4_timeline_monotonicity_witness :
    timeline_lines (runChain exManager exFs ""
        [⟨"started", [], "t"⟩, ⟨"success", [], "t"⟩]) =
      expectedEntries exManager exFs [] [⟨"started", [], "t"⟩, ⟨"success", [], "t"⟩] ∧
    (expectedEntries exManager exFs []
        [⟨"started", [], "t"⟩, ⟨"success", [], "t"⟩]).length =
      ([⟨"started", [], "t"⟩, ⟨"success", [], "t"⟩] : List Call).length :=
  C4_timeline_monotonicity exManager exFs
    [⟨"started", [], "t"⟩, ⟨"success", [], "t"⟩] (by simp) (by decide)

/-- C4, refutation of the unamended claim: a single (N = 1) `failure` call
whose error message contains a newline followed by `"- "` yields a rendered
body whose timeline consists of two `-`-lines, not one. -/
theorem C4_counterexample :
    ([⟨"failure", [("error_message", "x\n- fake")], "t"⟩] : List Call).length = 1 ∧
    (timeline_lines (runChain exManager exFs ""
      [⟨"failure", [("error_message", "x\n- fake")], "t"⟩])).length = 2 :=
  ⟨rfl, by decide⟩

/-- C5 (amended): glyph rewrite at the next call.  For a non-empty well-formed
chain of calls followed by one more call, the entry lines carried by the last
rendered body are exactly the entry lines of the previous body with every
occurrence of the five-character pattern `" - 🟠 "` rewritten to `" - 🟢 "` —
and otherwise character-for-character unchanged — followed by the new call's
entry.  In particular an in-progress status glyph rendered as `" - 🟠 "` turns
green at call K+1; an orange glyph embedded in an entry's free text without
that exact surrounding pattern is NOT rewritten, see the counterexample. -/
theorem C5_glyph_rewrite (m : Manager) (fs : String → Option String)
    (calls : List Call) (c : Call) (hne : calls ≠ [])
    (hok : ∀ h ∈ calls, entryOkB (builtEntry m h.stage h.data h.ts fs) = true ∧
      (bodyPre m h.stage h.data h.ts fs).data.contains '📋' = false)
    (hcE : entryOkB (builtEntry m c.stage c.data c.ts fs) = true)
    (hcP : (bodyPre m c.stage c.data c.ts fs).data.contains '📋' = false) :
    timeline_lines (runChain m fs "" (calls ++ [c])) =
      (timeline_lines (runChain m fs "" calls)).map
        (fun e => pyReplace e " - 🟠 " " - 🟢 ") ++
      [builtEntry m c.stage c.data c.ts fs] := by
  have hwfK := runChain_WF m fs calls "" [] (Or.inr ⟨rfl, rfl⟩) hok hne
  obtain ⟨hgood, hlast⟩ := entryOkB_good hcE
  have hstep := extract_assembled m c.stage c.data (runChain m fs "" calls) c.ts fs
    (expectedEntries m fs [] calls) (Or.inl hwfK) (contains_false_not_mem hcP) hgood hlast
  rw [runChain_append]
  have h1 : runChain m fs (runChain m fs "" calls) [c] =
      extract_timeline_from_comment
        (assembled m c.stage c.data (runChain m fs "" calls) c.ts fs) := by
    show (match build_comment_body m c.stage c.data (runChain m fs "" calls) c.ts fs with
          | Except.ok body => runChain m fs (extract_timeline_from_comment body) []
          | Except.error _ => runChain m fs "" calls) = _
    rw [build_comment_body_eq_ok]
    rfl
  rw [h1, timeline_lines_of_WF hstep, timeline_lines_of_WF hwfK]

/-- C5 witness: the amended theorem at a concrete chain (`started` at call K,
`success` at call K+1). -/
theorem C5_glyph_rewrite_witness :
    timeline_lines (runChain exManager exFs ""
        ([⟨"started", [], "t"⟩] ++ [⟨"success", [], "t"⟩])) =
      (timeline_lines (runChain exManager exFs "" [⟨"started", [], "t"⟩])).map
        (fun e => pyReplace e " - 🟠 " " - 🟢 ") ++
      [builtEntry exManager "success" [] "t" exFs] :=
  C5_glyph_rewrite exManager exFs [⟨"started", [], "t"⟩] ⟨"success", [], "t"⟩
    (by simp) (by decide) (by decide) (by decide)

/-- C5, refutation of the unamended claim: after a `failure` call whose entry
carries the in-progress glyph inside its free text (`"look 🟠 here"`) and a
subsequent `success` call, the carried-forward first entry still contains the
orange glyph — only exact `" - 🟠 "` occurrences are rewritten, so the entry
is not "rendered with the completed glyph". -/
theorem C5_counterexample :
    (timeline_lines (runChain exManager exFs ""
        [⟨"failure", [("error_message", "look 🟠 here")], "t"⟩])).map
      (fun e => containsStr e "🟠") = [true] ∧
    (timeline_lines (runChain exManager exFs ""
        [⟨"failure", [("error_message", "look 🟠 here")], "t"⟩,
         ⟨"success", [], "t"⟩])).map (fun e => containsStr e "🟠") = [true, false] :=
  ⟨by decide, by decide⟩
